import Mathlib

/-!
Verification of `session-types-rmp`: a typed request/response transport
(`Channel` carrier + `Value<T>` wrapper over a MessagePack codec) and the
linear-search session protocol driven by the `server` / `client` endpoint
drivers of `src/lib.rs`.

The byte-level codec is external to the repository (rmp_serde); it is
modelled from the spec as a self-delimiting, tag-based binary encoding.
Everything else (the carrier, the typed value send/recv, the choice
primitives, and the two protocol drivers) is translated directly from
`src/lib.rs`.
-/

set_option maxHeartbeats 1000000

namespace SessionRmp

/- ## Byte-level codec (modelled from the spec) -/

/-- Modelled from the spec: big-endian base-256 digit list of width `k`
for the external binary codec (rmp_serde / MessagePack), which is not part
of this repository. -/
def be : Nat → Nat → List Nat
  | 0, _ => []
  | k + 1, n => (n / 256 ^ k) % 256 :: be k n

/-- Modelled from the spec: read back a big-endian base-256 digit list. -/
def unbe (l : List Nat) : Nat :=
  l.foldl (fun a b => a * 256 + b) 0

/-- Modelled from the spec: split off exactly 8 bytes of a self-delimiting
64-bit payload, failing on truncated input. -/
def take8 (l : List Nat) : Option (List Nat × List Nat) :=
  if l.length < 8 then none else some (l.take 8, l.drop 8)

/-- Modelled from the spec: MessagePack-style encoding of a signed 64-bit
integer (`isize`): positive fixint, negative fixint, or the `0xd3` int64
tag followed by 8 big-endian bytes of the two's-complement value. -/
def encodeInt (v : Int) : List Nat :=
  if 0 ≤ v ∧ v < 128 then [v.toNat]
  else if -32 ≤ v ∧ v < 0 then [(v + 256).toNat]
  else 0xd3 :: be 8 (v.emod (2 ^ 64)).toNat

/-- Reinterpret a 64-bit unsigned payload as a two's-complement integer. -/
def i64FromNat (n : Nat) : Int :=
  if n < 2 ^ 63 then (n : Int) else (n : Int) - 2 ^ 64

/-- Modelled from the spec: MessagePack-style decoding of a signed integer;
fails (`none`) on end-of-stream, unknown tags, or a truncated payload. -/
def decodeInt : List Nat → Option (Int × List Nat)
  | [] => none
  | b :: rest =>
    if b < 128 then some ((b : Int), rest)
    else if 224 ≤ b ∧ b ≤ 255 then some ((b : Int) - 256, rest)
    else if b = 0xd3 then
      match take8 rest with
      | some (bs, r) => some (i64FromNat (unbe bs), r)
      | none => none
    else none

/-- Modelled from the spec: MessagePack-style encoding of an unsigned
64-bit integer (`usize`): positive fixint or the `0xcf` uint64 tag. -/
def encodeNat (n : Nat) : List Nat :=
  if n < 128 then [n] else 0xcf :: be 8 (n % 2 ^ 64)

/-- Modelled from the spec: MessagePack-style decoding of an unsigned
integer; fails on end-of-stream, unknown tags, or a truncated payload. -/
def decodeNat : List Nat → Option (Nat × List Nat)
  | [] => none
  | b :: rest =>
    if b < 128 then some (b, rest)
    else if b = 0xcf then
      match take8 rest with
      | some (bs, r) => some (unbe bs, r)
      | none => none
    else none

/-- Modelled from the spec: MessagePack encoding of a boolean
(`0xc2` = false, `0xc3` = true). -/
def encodeBool (b : Bool) : List Nat :=
  [if b then 0xc3 else 0xc2]

/-- Modelled from the spec: MessagePack decoding of a boolean. -/
def decodeBool : List Nat → Option (Bool × List Nat)
  | [] => none
  | b :: rest =>
    if b = 0xc2 then some (false, rest)
    else if b = 0xc3 then some (true, rest)
    else none

/-- The range of Rust's `isize` (64-bit). -/
abbrev inI64 (v : Int) : Prop := -(2 ^ 63) ≤ v ∧ v < 2 ^ 63

end SessionRmp

namespace SessionRmp

/- ## Codec lemmas -/

theorem be_length (k n : Nat) : (be k n).length = k := by
  induction k generalizing n with
  | zero => rfl
  | succ k ih => simp [be, ih]

theorem unbe_aux (k n a : Nat) :
    (be k n).foldl (fun x b => x * 256 + b) a = a * 256 ^ k + n % 256 ^ k := by
  induction k generalizing a with
  | zero => simp [be, Nat.mod_one]
  | succ k ih =>
    have hm : n % (256 ^ k * 256) = n % 256 ^ k + 256 ^ k * (n / 256 ^ k % 256) :=
      Nat.mod_mul
    simp only [be, List.foldl_cons, ih, pow_succ]
    rw [hm]
    ring

theorem unbe_be (k n : Nat) (h : n < 256 ^ k) : unbe (be k n) = n := by
  have := unbe_aux k n 0
  simpa [unbe, Nat.mod_eq_of_lt h] using this

theorem take8_append (bs r : List Nat) (h : bs.length = 8) :
    take8 (bs ++ r) = some (bs, r) := by
  simp [take8, h, List.take_left' h, List.drop_left' h]

theorem take8_short (l : List Nat) (h : l.length < 8) : take8 l = none := by
  simp [take8, h]

theorem decodeBool_encodeBool (b : Bool) (r : List Nat) :
    decodeBool (encodeBool b ++ r) = some (b, r) := by
  cases b <;> simp [encodeBool, decodeBool]

theorem take8_some {l bs r : List Nat} (h : take8 l = some (bs, r)) :
    bs = l.take 8 ∧ r = l.drop 8 ∧ 8 ≤ l.length := by
  unfold take8 at h
  by_cases hl : l.length < 8
  · rw [if_pos hl] at h
    exact absurd h (by simp)
  · rw [if_neg hl] at h
    simp only [Option.some.injEq, Prod.mk.injEq] at h
    exact ⟨h.1.symm, h.2.symm, by omega⟩

theorem decodeInt_fixpos (b : Nat) (hb : b < 128) (r : List Nat) :
    decodeInt (b :: r) = some ((b : Int), r) := by
  simp [decodeInt, hb]

theorem decodeInt_fixneg (b : Nat) (hb1 : 224 ≤ b) (hb2 : b ≤ 255)
    (r : List Nat) : decodeInt (b :: r) = some ((b : Int) - 256, r) := by
  have hb0 : ¬ b < 128 := by omega
  simp [decodeInt, hb0, hb1, hb2]

theorem decodeInt_d3 (payload r : List Nat) (h : payload.length = 8) :
    decodeInt (0xd3 :: (payload ++ r)) = some (i64FromNat (unbe payload), r) := by
  simp only [decodeInt]
  norm_num
  rw [take8_append _ _ h]

theorem decodeNat_cf (payload r : List Nat) (h : payload.length = 8) :
    decodeNat (0xcf :: (payload ++ r)) = some (unbe payload, r) := by
  simp only [decodeNat]
  norm_num
  rw [take8_append _ _ h]

theorem decodeInt_encodeInt (v : Int) (h : inI64 v) (r : List Nat) :
    decodeInt (encodeInt v ++ r) = some (v, r) := by
  obtain ⟨h1, h2⟩ := h
  unfold encodeInt
  by_cases hs : 0 ≤ v ∧ v < 128
  · rw [if_pos hs]
    have hb : v.toNat < 128 := by omega
    have hv : ((v.toNat : Int)) = v := Int.toNat_of_nonneg hs.1
    simp [decodeInt_fixpos _ hb, hv]
  · rw [if_neg hs]
    by_cases hn : -32 ≤ v ∧ v < 0
    · rw [if_pos hn]
      have hb1 : 224 ≤ (v + 256).toNat := by omega
      have hb2 : (v + 256).toNat ≤ 255 := by omega
      have hv : (((v + 256).toNat : Int)) = v + 256 :=
        Int.toNat_of_nonneg (by omega)
      simp [decodeInt_fixneg _ hb1 hb2, hv]
    · rw [if_neg hn]
      have hmlt : v.emod (2 ^ 64) < 2 ^ 64 := Int.emod_lt_of_pos v (by positivity)
      have hmge : 0 ≤ v.emod (2 ^ 64) := Int.emod_nonneg v (by positivity)
      have hmn : (v.emod (2 ^ 64)).toNat < 256 ^ 8 := by
        have h8 : (256 : Nat) ^ 8 = 2 ^ 64 := by norm_num
        omega
      have hlen : (be 8 (v.emod (2 ^ 64)).toNat).length = 8 := be_length 8 _
      have hun : unbe (be 8 (v.emod (2 ^ 64)).toNat) = (v.emod (2 ^ 64)).toNat :=
        unbe_be 8 _ hmn
      have hi : i64FromNat (v.emod (2 ^ 64)).toNat = v := by
        rcases le_or_lt 0 v with hv0 | hv0
        · have hve : v.emod (2 ^ 64) = v := Int.emod_eq_of_lt hv0 (by omega)
          have hvlt : v.toNat < 2 ^ 63 := by omega
          unfold i64FromNat
          rw [hve, if_pos hvlt]
          exact Int.toNat_of_nonneg hv0
        · have hve : v.emod (2 ^ 64) = v + 2 ^ 64 := by
            have e1 : (v + 2 ^ 64 * 1).emod (2 ^ 64) = v.emod (2 ^ 64) :=
              Int.add_mul_emod_self_left v (2 ^ 64) 1
            have e1' : (v + 2 ^ 64).emod (2 ^ 64) = v.emod (2 ^ 64) := by
              simpa using e1
            have e2 : (v + 2 ^ 64).emod (2 ^ 64) = v + 2 ^ 64 :=
              Int.emod_eq_of_lt (by omega) (by omega)
            exact e1'.symm.trans e2
          have hge : ¬ ((v + 2 ^ 64).toNat < 2 ^ 63) := by omega
          unfold i64FromNat
          rw [hve, if_neg hge, Int.toNat_of_nonneg (by omega : 0 ≤ v + 2 ^ 64)]
          ring
      rw [List.cons_append, decodeInt_d3 _ _ hlen, hun, hi]

theorem decodeNat_encodeNat (n : Nat) (h : n < 2 ^ 64) (r : List Nat) :
    decodeNat (encodeNat n ++ r) = some (n, r) := by
  unfold encodeNat
  by_cases hs : n < 128
  · rw [if_pos hs]
    simp [decodeNat, hs]
  · rw [if_neg hs]
    have hmod : n % 2 ^ 64 = n := Nat.mod_eq_of_lt h
    have hn8 : n < 256 ^ 8 := by
      have h8 : (256 : Nat) ^ 8 = 2 ^ 64 := by norm_num
      omega
    have hlen : (be 8 (n % 2 ^ 64)).length = 8 := be_length 8 _
    rw [List.cons_append, decodeNat_cf _ _ hlen, hmod, unbe_be 8 n hn8]

theorem decodeBool_shrink {l r : List Nat} {b : Bool}
    (h : decodeBool l = some (b, r)) : r.length < l.length := by
  cases l with
  | nil => simp [decodeBool] at h
  | cons x xs =>
    simp only [decodeBool] at h
    split_ifs at h <;> simp_all

theorem decodeInt_shrink {l r : List Nat} {v : Int}
    (h : decodeInt l = some (v, r)) : r.length < l.length := by
  cases l with
  | nil => simp [decodeInt] at h
  | cons x xs =>
    simp only [decodeInt] at h
    split_ifs at h
    · simp_all
    · simp_all
    · cases h8 : take8 xs with
      | none => rw [h8] at h; simp at h
      | some p =>
        obtain ⟨bs, rest⟩ := p
        rw [h8] at h
        simp only [Option.some.injEq, Prod.mk.injEq] at h
        obtain ⟨-, hr, hlen⟩ := take8_some h8
        have hr' : r = xs.drop 8 := h.2 ▸ hr
        subst hr'
        simp only [List.length_cons, List.length_drop]
        omega

theorem decodeNat_shrink {l r : List Nat} {n : Nat}
    (h : decodeNat l = some (n, r)) : r.length < l.length := by
  cases l with
  | nil => simp [decodeNat] at h
  | cons x xs =>
    simp only [decodeNat] at h
    split_ifs at h
    · simp_all
    · cases h8 : take8 xs with
      | none => rw [h8] at h; simp at h
      | some p =>
        obtain ⟨bs, rest⟩ := p
        rw [h8] at h
        simp only [Option.some.injEq, Prod.mk.injEq] at h
        obtain ⟨-, hr, hlen⟩ := take8_some h8
        have hr' : r = xs.drop 8 := h.2 ▸ hr
        subst hr'
        simp only [List.length_cons, List.length_drop]
        omega

/- ## The carrier (src/lib.rs lines 10-84) -/

/-- `SendError` (src/lib.rs lines 40-44): `Encode` wraps a serialization
failure (`rmp_serde::encode::Error`), `Flush` an `io::Error` of the final
flush. The wrapped external error payloads are not modelled. -/
inductive SendError where
  | Encode : SendError
  | Flush : SendError
deriving DecidableEq

/-- `RecvError` (src/lib.rs lines 58-61): `Decode` wraps
`rmp_serde::decode::Error` (malformed, truncated or end-of-stream input). -/
inductive RecvError where
  | Decode : RecvError
deriving DecidableEq

/-- A fault scheduled for one `send` operation: either the serialization
step fails (the bytes never reach the stream) or the final flush fails.
These are the two failure sites of `ChannelSend::send`
(src/lib.rs lines 50-55); which external condition fires is fault
injection, as in the spec's fault-injection test. -/
structure SendFault where
  serializeFault : Bool
  flushFault : Bool
deriving DecidableEq

/-- One observable operation of a protocol driver on the carrier, with its
outcome. Instrumentation: records the order in which the drivers touch the
carrier. `compare` records the candidate-vs-sample comparison of the
server (src/lib.rs line 147). -/
inductive Ev where
  | sendChoice (b : Bool) (err : Option SendError)
  | sendInt (v : Int) (err : Option SendError)
  | sendNat (n : Nat) (err : Option SendError)
  | recvChoice (res : Option Bool)
  | recvInt (res : Option Int)
  | recvNat (res : Option Nat)
  | compare (candidate sample : Int)
deriving DecidableEq

/-- The `Channel` carrier (src/lib.rs lines 13-23): owns one duplex byte
stream. `input` holds the bytes available for reading and `output` the
bytes written so far; `flushed` says whether no written byte is still
buffered. `faults` is the fault-injection schedule, one entry consumed per
send (an empty schedule means sends succeed). `log` is the instrumentation
trace of driver operations. -/
structure Channel where
  input : List Nat
  output : List Nat
  flushed : Bool
  faults : List SendFault
  log : List Ev
deriving DecidableEq

/-- `Value<T>` (src/lib.rs lines 25-38): an immutable wrapper marking a
payload as protocol-transportable. -/
structure Value (α : Type) where
  val : α
deriving DecidableEq

/-- `Value::new` (src/lib.rs lines 29-31). -/
def Value.new {α : Type} (a : α) : Value α := ⟨a⟩

/-- `Value::get` (src/lib.rs lines 34-38): consumes the wrapper. -/
def Value.get {α : Type} (v : Value α) : α := v.val

/-- The serialization collaborator (`serde::Serialize + Deserialize`
through rmp_serde), for the payload types the protocol transports. -/
class Serial (α : Type) where
  enc : α → List Nat
  dec : List Nat → Option (α × List Nat)

instance serialInt : Serial Int := ⟨encodeInt, decodeInt⟩

instance serialNat : Serial Nat := ⟨encodeNat, decodeNat⟩

instance serialBool : Serial Bool := ⟨encodeBool, decodeBool⟩

/-- The body of `ChannelSend::send` (src/lib.rs lines 50-55): serialize the
payload into the stream (a failure there becomes `SendError::Encode`),
then flush (a failure there becomes `SendError::Flush`). The head of the
fault schedule decides whether either external step fails; a flush failure
leaves the written bytes unflushed and the carrier in a state that must
not be reused. -/
def sendBytes (bytes : List Nat) (ch : Channel) : Channel × Option SendError :=
  match ch.faults with
  | [] => ({ ch with output := ch.output ++ bytes, flushed := true }, none)
  | f :: fs =>
    if f.serializeFault then
      ({ ch with faults := fs }, some SendError.Encode)
    else if f.flushFault then
      ({ ch with faults := fs, output := ch.output ++ bytes, flushed := false },
        some SendError.Flush)
    else
      ({ ch with faults := fs, output := ch.output ++ bytes, flushed := true },
        none)

/-- `ChannelSend for Value<T>` (src/lib.rs lines 46-56). -/
def Value.send {α : Type} [Serial α] (v : Value α) (ch : Channel) :
    Channel × Option SendError :=
  sendBytes (Serial.enc v.val) ch

/-- `ChannelRecv for Value<T>` (src/lib.rs lines 63-72): decode one value
from the stream; a decoding failure becomes `RecvError::Decode`, the only
receive failure kind. -/
def Value.recv {α : Type} [Serial α] (ch : Channel) :
    Channel × Option (Value α) :=
  match Serial.dec (α := α) ch.input with
  | none => (ch, none)
  | some (a, rest) => ({ ch with input := rest }, some (Value.new a))

/-- `Carrier::send_choice` (src/lib.rs lines 76-78):
`Value(choice).send(self)`. -/
def Channel.send_choice (ch : Channel) (choice : Bool) :
    Channel × Option SendError :=
  (Value.new choice).send ch

/-- `Carrier::recv_choice` (src/lib.rs lines 81-83):
`Value::recv(self).map(|Value(value)| value)`. -/
def Channel.recv_choice (ch : Channel) : Channel × Option Bool :=
  match Value.recv (α := Bool) ch with
  | (ch', r) => (ch', r.map Value.get)

/-- Modelled from the spec: sending a boolean choice "exactly as an
ordinary typed value would be sent" — encode the plain boolean with the
same codec, write all its bytes to the same stream, flush; no separate
sideband. -/
def specPlainBoolSend (b : Bool) (ch : Channel) : Channel × Option SendError :=
  sendBytes (encodeBool b) ch

/-- Modelled from the spec: receiving a boolean choice exactly as an
ordinary typed boolean value — decode one boolean with the same codec from
the same stream. -/
def specPlainBoolRecv (ch : Channel) : Channel × Option Bool :=
  match decodeBool ch.input with
  | none => (ch, none)
  | some (b, rest) => ({ ch with input := rest }, some b)

/-- Append one instrumentation event. -/
def logEv (e : Ev) (ch : Channel) : Channel :=
  { ch with log := ch.log ++ [e] }

/-- A driver-level choice send (the session layer calling
`carrier.send_choice`), instrumented. -/
def sendChoiceOp (b : Bool) (ch : Channel) : Channel × Option SendError :=
  match ch.send_choice b with
  | (ch1, r) => (logEv (Ev.sendChoice b r) ch1, r)

/-- A driver-level `send(Value::new(v))` of an `isize`, instrumented. -/
def sendIntOp (v : Int) (ch : Channel) : Channel × Option SendError :=
  match (Value.new v).send ch with
  | (ch1, r) => (logEv (Ev.sendInt v r) ch1, r)

/-- A driver-level `send(Value::new(n))` of a `usize`, instrumented. -/
def sendNatOp (n : Nat) (ch : Channel) : Channel × Option SendError :=
  match (Value.new n).send ch with
  | (ch1, r) => (logEv (Ev.sendNat n r) ch1, r)

/-- A driver-level choice receive (the session layer calling
`carrier.recv_choice`), instrumented. -/
def recvChoiceOp (ch : Channel) : Channel × Option Bool :=
  match ch.recv_choice with
  | (ch1, r) => (logEv (Ev.recvChoice r) ch1, r)

/-- A driver-level `recv()` of a `Value<isize>`, instrumented. -/
def recvIntOp (ch : Channel) : Channel × Option Int :=
  match Value.recv (α := Int) ch with
  | (ch1, r) => (logEv (Ev.recvInt (r.map Value.get)) ch1, r.map Value.get)

/-- A driver-level `recv()` of a `Value<usize>`, instrumented. -/
def recvNatOp (ch : Channel) : Channel × Option Nat :=
  match Value.recv (α := Nat) ch with
  | (ch1, r) => (logEv (Ev.recvNat (r.map Value.get)) ch1, r.map Value.get)

/-- A driver abort: the source `unwrap`s every carrier result, so the
first failing operation aborts the whole session with that error. -/
inductive DrvErr where
  | send (e : SendError)
  | recv (e : RecvError)
deriving DecidableEq

theorem enc_int : (Serial.enc : Int → List Nat) = encodeInt := rfl

theorem enc_nat : (Serial.enc : Nat → List Nat) = encodeNat := rfl

theorem enc_bool : (Serial.enc : Bool → List Nat) = encodeBool := rfl

theorem dec_int : (Serial.dec : List Nat → Option (Int × List Nat)) = decodeInt := rfl

theorem dec_nat : (Serial.dec : List Nat → Option (Nat × List Nat)) = decodeNat := rfl

theorem dec_bool : (Serial.dec : List Nat → Option (Bool × List Nat)) = decodeBool := rfl

theorem logEv_input (e : Ev) (ch : Channel) : (logEv e ch).input = ch.input := rfl

theorem recvChoiceOp_some_lt {ch ch' : Channel} {b : Bool}
    (h : recvChoiceOp ch = (ch', some b)) :
    ch'.input.length < ch.input.length := by
  unfold recvChoiceOp Channel.recv_choice Value.recv at h
  rw [dec_bool] at h
  cases hd : decodeBool ch.input with
  | none => rw [hd] at h; simp [logEv] at h
  | some p =>
    obtain ⟨bb, rest⟩ := p
    rw [hd] at h
    simp only [logEv, Option.map_some', Prod.mk.injEq] at h
    have hch : ch' = { ch with input := rest, log := ch.log ++ [Ev.recvChoice (some (Value.new bb).get)] } := by
      rw [← h.1]
    rw [hch]
    exact decodeBool_shrink hd

theorem recvIntOp_some_lt {ch ch' : Channel} {v : Int}
    (h : recvIntOp ch = (ch', some v)) :
    ch'.input.length < ch.input.length := by
  unfold recvIntOp Value.recv at h
  rw [dec_int] at h
  cases hd : decodeInt ch.input with
  | none => rw [hd] at h; simp [logEv] at h
  | some p =>
    obtain ⟨vv, rest⟩ := p
    rw [hd] at h
    simp only [logEv, Option.map_some', Prod.mk.injEq] at h
    have hch : ch' = { ch with input := rest, log := ch.log ++ [Ev.recvInt (some (Value.new vv).get)] } := by
      rw [← h.1]
    rw [hch]
    exact decodeInt_shrink hd

theorem sendChoiceOp_fst_input (b : Bool) (ch : Channel) :
    ((sendChoiceOp b ch).1).input = ch.input := by
  unfold sendChoiceOp Channel.send_choice Value.send sendBytes
  cases hf : ch.faults with
  | nil => simp [logEv]
  | cons f fs =>
    by_cases h1 : f.serializeFault <;> by_cases h2 : f.flushFault <;>
      simp [logEv, h1, h2]

/- ## The endpoint drivers (src/lib.rs lines 120-206) -/

/-- The scan loop of the server driver (src/lib.rs lines 134-165): offer
HasNext/Done; on HasNext receive a candidate, compare it with the sample,
and either announce the match and send the seen-count, or announce the
miss, bump the count and loop; on Done hand the carrier back. -/
def serverLoop (sample : Int) (count : Nat) (ch : Channel) :
    Channel × Except DrvErr Bool :=
  match h1 : recvChoiceOp ch with
  | (ch1, none) => (ch1, Except.error (DrvErr.recv RecvError.Decode))
  | (ch1, some choice) =>
    if choice then
      match h2 : recvIntOp ch1 with
      | (ch2, none) => (ch2, Except.error (DrvErr.recv RecvError.Decode))
      | (ch2, some v) =>
        let ch2c := logEv (Ev.compare v sample) ch2
        if v = sample then
          match sendChoiceOp false ch2c with
          | (ch3, some e) => (ch3, Except.error (DrvErr.send e))
          | (ch3, none) =>
            match sendNatOp count ch3 with
            | (ch4, some e) => (ch4, Except.error (DrvErr.send e))
            | (ch4, none) => (ch4, Except.ok false)
        else
          match h3 : sendChoiceOp true ch2c with
          | (ch3, some e) => (ch3, Except.error (DrvErr.send e))
          | (ch3, none) => serverLoop sample (count + 1) ch3
    else
      (ch1, Except.ok false)
termination_by ch.input.length
decreasing_by
  have e1 := recvChoiceOp_some_lt h1
  have e2 := recvIntOp_some_lt h2
  have e3 : ch3.input = ch2.input := by
    have h4 := congrArg (fun p => p.1.input) h3
    simpa [sendChoiceOp_fst_input, logEv_input] using h4.symm
  rw [e3]
  omega

/-- The server driver `server` (src/lib.rs lines 120-166): offer
Proceed/Quit at Start; on Quit return the carrier and `true`; on Proceed
receive the sample and run the scan loop with the seen-count starting at
zero. -/
def serverRun (ch : Channel) : Channel × Except DrvErr Bool :=
  match recvChoiceOp ch with
  | (ch1, none) => (ch1, Except.error (DrvErr.recv RecvError.Decode))
  | (ch1, some choice) =>
    if choice then
      match recvIntOp ch1 with
      | (ch2, none) => (ch2, Except.error (DrvErr.recv RecvError.Decode))
      | (ch2, some sample) => serverLoop sample 0 ch2
    else
      (ch1, Except.ok true)

/-- The candidate loop of the client driver (src/lib.rs lines 181-205).
The third component returns the candidates the iterator had not yet
yielded when the driver stopped (the iterator's remaining elements). -/
def clientLoop (ch : Channel) :
    List Int → Channel × Except DrvErr (Option Nat) × List Int
  | [] =>
    match sendChoiceOp false ch with
    | (ch1, some e) => (ch1, Except.error (DrvErr.send e), [])
    | (ch1, none) => (ch1, Except.ok none, [])
  | v :: vs =>
    match sendChoiceOp true ch with
    | (ch1, some e) => (ch1, Except.error (DrvErr.send e), vs)
    | (ch1, none) =>
      match sendIntOp v ch1 with
      | (ch2, some e) => (ch2, Except.error (DrvErr.send e), vs)
      | (ch2, none) =>
        match recvChoiceOp ch2 with
        | (ch3, none) => (ch3, Except.error (DrvErr.recv RecvError.Decode), vs)
        | (ch3, some c) =>
          if c then clientLoop ch3 vs
          else
            match recvNatOp ch3 with
            | (ch4, none) => (ch4, Except.error (DrvErr.recv RecvError.Decode), vs)
            | (ch4, some idx) => (ch4, Except.ok (some idx), vs)

/-- The client driver `client` (src/lib.rs lines 171-206): choose the
search session, send the sample, then run the candidate loop. -/
def clientRun (ch : Channel) (sample : Int) (values : List Int) :
    Channel × Except DrvErr (Option Nat) × List Int :=
  match sendChoiceOp true ch with
  | (ch1, some e) => (ch1, Except.error (DrvErr.send e), values)
  | (ch1, none) =>
    match sendIntOp sample ch1 with
    | (ch2, some e) => (ch2, Except.error (DrvErr.send e), values)
    | (ch2, none) => clientLoop ch2 values

/- ## Specification-side functions -/

/-- Zero-based index of the first occurrence of `sample`, offset by
`count`: the specified search result. -/
def firstIdxFrom (sample : Int) (count : Nat) : List Int → Option Nat
  | [] => none
  | v :: vs => if v = sample then some count else firstIdxFrom sample (count + 1) vs

/-- Zero-based index of the first occurrence of `sample` in `values`. -/
def firstIdx (sample : Int) (values : List Int) : Option Nat :=
  firstIdxFrom sample 0 values

/-- The candidates after the first match: what the client iterator never
yields when the server announces a match. -/
def afterMatch (sample : Int) : List Int → List Int
  | [] => []
  | v :: vs => if v = sample then vs else afterMatch sample vs

/-- Expected client-to-server bytes of the scan loop. -/
def scanC2S (sample : Int) : List Int → List Nat
  | [] => encodeBool false
  | v :: vs =>
    encodeBool true ++ encodeInt v ++ (if v = sample then [] else scanC2S sample vs)

/-- Expected server-to-client bytes of the scan loop. -/
def scanS2C (sample : Int) (count : Nat) : List Int → List Nat
  | [] => []
  | v :: vs =>
    if v = sample then encodeBool false ++ encodeNat count
    else encodeBool true ++ scanS2C sample (count + 1) vs

/-- Expected server-side event trace of the scan loop. -/
def serverScanLog (sample : Int) (count : Nat) : List Int → List Ev
  | [] => [Ev.recvChoice (some false)]
  | v :: vs =>
    Ev.recvChoice (some true) :: Ev.recvInt (some v) :: Ev.compare v sample ::
      (if v = sample then [Ev.sendChoice false none, Ev.sendNat count none]
       else Ev.sendChoice true none :: serverScanLog sample (count + 1) vs)

/-- Expected client-side event trace of the scan loop. -/
def clientScanLog (sample : Int) (count : Nat) : List Int → List Ev
  | [] => [Ev.sendChoice false none]
  | v :: vs =>
    Ev.sendChoice true none :: Ev.sendInt v none ::
      (if v = sample then [Ev.recvChoice (some false), Ev.recvNat (some count)]
       else Ev.recvChoice (some true) :: clientScanLog sample (count + 1) vs)

/-- One full session's client-to-server byte stream. -/
def sessC2S (sample : Int) (values : List Int) : List Nat :=
  encodeBool true ++ encodeInt sample ++ scanC2S sample values

/-- One full session's server-to-client byte stream. -/
def sessS2C (sample : Int) (values : List Int) : List Nat :=
  scanS2C sample 0 values

/-- The error a logged operation failed with, if it failed. -/
def evErr : Ev → Option DrvErr
  | Ev.sendChoice _ (some e) => some (DrvErr.send e)
  | Ev.sendInt _ (some e) => some (DrvErr.send e)
  | Ev.sendNat _ (some e) => some (DrvErr.send e)
  | Ev.recvChoice none => some (DrvErr.recv RecvError.Decode)
  | Ev.recvInt none => some (DrvErr.recv RecvError.Decode)
  | Ev.recvNat none => some (DrvErr.recv RecvError.Decode)
  | _ => none

/-- Every operation of the trace succeeded. -/
def cleanLog (l : List Ev) : Prop := ∀ x ∈ l, evErr x = none

/-- The driver stopped at the first failing carrier operation: on success
all new events are clean; on an abort the failed operation is the last
event performed, its error is the error returned, and every operation
before it succeeded — no retry, nothing after the failure. -/
def abortsAtFirst (log0 : List Ev) (ch : Channel) (r : Option DrvErr) : Prop :=
  ∃ news, ch.log = log0 ++ news ∧
    (r = none → cleanLog news) ∧
    ∀ e, r = some e →
      ∃ pre last, news = pre ++ [last] ∧ cleanLog pre ∧ evErr last = some e

/-- The abort component of a driver result. -/
def errOf {β : Type} : Except DrvErr β → Option DrvErr
  | Except.ok _ => none
  | Except.error e => some e

/- ## Operation evaluation lemmas -/

theorem sendChoiceOp_nofault (b : Bool) (inp out : List Nat) (fl : Bool)
    (lg : List Ev) :
    sendChoiceOp b ⟨inp, out, fl, [], lg⟩ =
      (⟨inp, out ++ encodeBool b, true, [], lg ++ [Ev.sendChoice b none]⟩, none) := by
  simp [sendChoiceOp, Channel.send_choice, Value.send, Value.new, sendBytes,
    logEv, enc_bool]

theorem sendIntOp_nofault (v : Int) (inp out : List Nat) (fl : Bool)
    (lg : List Ev) :
    sendIntOp v ⟨inp, out, fl, [], lg⟩ =
      (⟨inp, out ++ encodeInt v, true, [], lg ++ [Ev.sendInt v none]⟩, none) := by
  simp [sendIntOp, Value.send, Value.new, sendBytes, logEv, enc_int]

theorem sendNatOp_nofault (n : Nat) (inp out : List Nat) (fl : Bool)
    (lg : List Ev) :
    sendNatOp n ⟨inp, out, fl, [], lg⟩ =
      (⟨inp, out ++ encodeNat n, true, [], lg ++ [Ev.sendNat n none]⟩, none) := by
  simp [sendNatOp, Value.send, Value.new, sendBytes, logEv, enc_nat]

theorem recvChoiceOp_at (b : Bool) (rest out : List Nat) (fl : Bool)
    (fs : List SendFault) (lg : List Ev) :
    recvChoiceOp ⟨encodeBool b ++ rest, out, fl, fs, lg⟩ =
      (⟨rest, out, fl, fs, lg ++ [Ev.recvChoice (some b)]⟩, some b) := by
  simp [recvChoiceOp, Channel.recv_choice, Value.recv, dec_bool,
    decodeBool_encodeBool, logEv, Value.new, Value.get]

theorem recvIntOp_at (v : Int) (h : inI64 v) (rest out : List Nat) (fl : Bool)
    (fs : List SendFault) (lg : List Ev) :
    recvIntOp ⟨encodeInt v ++ rest, out, fl, fs, lg⟩ =
      (⟨rest, out, fl, fs, lg ++ [Ev.recvInt (some v)]⟩, some v) := by
  simp [recvIntOp, Value.recv, dec_int, decodeInt_encodeInt v h, logEv,
    Value.new, Value.get]

theorem recvNatOp_at (n : Nat) (h : n < 2 ^ 64) (rest out : List Nat)
    (fl : Bool) (fs : List SendFault) (lg : List Ev) :
    recvNatOp ⟨encodeNat n ++ rest, out, fl, fs, lg⟩ =
      (⟨rest, out, fl, fs, lg ++ [Ev.recvNat (some n)]⟩, some n) := by
  simp [recvNatOp, Value.recv, dec_nat, decodeNat_encodeNat n h, logEv,
    Value.new, Value.get]

theorem recvChoiceOp_fail {inp : List Nat} (h : decodeBool inp = none)
    (out : List Nat) (fl : Bool) (fs : List SendFault) (lg : List Ev) :
    recvChoiceOp ⟨inp, out, fl, fs, lg⟩ =
      (⟨inp, out, fl, fs, lg ++ [Ev.recvChoice none]⟩, none) := by
  simp [recvChoiceOp, Channel.recv_choice, Value.recv, dec_bool, h, logEv]

theorem recvIntOp_fail {inp : List Nat} (h : decodeInt inp = none)
    (out : List Nat) (fl : Bool) (fs : List SendFault) (lg : List Ev) :
    recvIntOp ⟨inp, out, fl, fs, lg⟩ =
      (⟨inp, out, fl, fs, lg ++ [Ev.recvInt none]⟩, none) := by
  simp [recvIntOp, Value.recv, dec_int, h, logEv]

theorem recvNatOp_fail {inp : List Nat} (h : decodeNat inp = none)
    (out : List Nat) (fl : Bool) (fs : List SendFault) (lg : List Ev) :
    recvNatOp ⟨inp, out, fl, fs, lg⟩ =
      (⟨inp, out, fl, fs, lg ++ [Ev.recvNat none]⟩, none) := by
  simp [recvNatOp, Value.recv, dec_nat, h, logEv]

/- ## One-step unfolding lemmas for the server loop -/

theorem serverLoop_eq_failChoice {ch ch1 : Channel} (sample : Int) (count : Nat)
    (h : recvChoiceOp ch = (ch1, none)) :
    serverLoop sample count ch = (ch1, Except.error (DrvErr.recv RecvError.Decode)) := by
  rw [serverLoop.eq_def]
  split
  · next ch1' h1 =>
    rw [h] at h1
    injection h1 with e1 e2
    rw [e1]
  · next ch1' choice h1 =>
    rw [h] at h1
    simp at h1

theorem serverLoop_eq_done {ch ch1 : Channel} (sample : Int) (count : Nat)
    (h : recvChoiceOp ch = (ch1, some false)) :
    serverLoop sample count ch = (ch1, Except.ok false) := by
  rw [serverLoop.eq_def]
  split
  · next ch1' h1 =>
    rw [h] at h1
    simp at h1
  · next ch1' choice h1 =>
    rw [h] at h1
    injection h1 with e1 e2
    injection e2 with e2
    subst e1
    subst e2
    simp

theorem serverLoop_eq_failRecv {ch ch1 ch2 : Channel} (sample : Int) (count : Nat)
    (h : recvChoiceOp ch = (ch1, some true))
    (h' : recvIntOp ch1 = (ch2, none)) :
    serverLoop sample count ch = (ch2, Except.error (DrvErr.recv RecvError.Decode)) := by
  rw [serverLoop.eq_def]
  split
  · next ch1' h1 =>
    rw [h] at h1
    simp at h1
  · next ch1' choice h1 =>
    rw [h] at h1
    injection h1 with e1 e2
    injection e2 with e2
    subst e1
    subst e2
    simp only [if_true]
    split
    · next ch2' h2 =>
      rw [h'] at h2
      injection h2 with f1 f2
      rw [f1]
    · next ch2' v h2 =>
      rw [h'] at h2
      simp at h2

theorem serverLoop_eq_hit {ch ch1 ch2 : Channel} {v : Int} (sample : Int) (count : Nat)
    (h : recvChoiceOp ch = (ch1, some true))
    (h' : recvIntOp ch1 = (ch2, some v)) (hv : v = sample) :
    serverLoop sample count ch =
      match sendChoiceOp false (logEv (Ev.compare v sample) ch2) with
      | (ch3, some e) => (ch3, Except.error (DrvErr.send e))
      | (ch3, none) =>
        match sendNatOp count ch3 with
        | (ch4, some e) => (ch4, Except.error (DrvErr.send e))
        | (ch4, none) => (ch4, Except.ok false) := by
  rw [serverLoop.eq_def]
  split
  · next ch1' h1 =>
    rw [h] at h1
    simp at h1
  · next ch1' choice h1 =>
    rw [h] at h1
    injection h1 with e1 e2
    injection e2 with e2
    subst e1
    subst e2
    simp only [if_true]
    split
    · next ch2' h2 =>
      rw [h'] at h2
      simp at h2
    · next ch2' v' h2 =>
      rw [h'] at h2
      injection h2 with f1 f2
      injection f2 with f2
      subst f1
      subst f2
      rw [if_pos hv]

theorem serverLoop_eq_miss {ch ch1 ch2 : Channel} {v : Int} (sample : Int) (count : Nat)
    (h : recvChoiceOp ch = (ch1, some true))
    (h' : recvIntOp ch1 = (ch2, some v)) (hv : ¬ v = sample) :
    serverLoop sample count ch =
      match sendChoiceOp true (logEv (Ev.compare v sample) ch2) with
      | (ch3, some e) => (ch3, Except.error (DrvErr.send e))
      | (ch3, none) => serverLoop sample (count + 1) ch3 := by
  rw [serverLoop.eq_def]
  split
  · next ch1' h1 =>
    rw [h] at h1
    simp at h1
  · next ch1' choice h1 =>
    rw [h] at h1
    injection h1 with e1 e2
    injection e2 with e2
    subst e1
    subst e2
    simp only [if_true]
    split
    · next ch2' h2 =>
      rw [h'] at h2
      simp at h2
    · next ch2' v' h2 =>
      rw [h'] at h2
      injection h2 with f1 f2
      injection f2 with f2
      subst f1
      subst f2
      rw [if_neg hv]
      split
      · next ch3 e h3 => rw [h3]
      · next ch3 h3 => rw [h3]

theorem serverLoop_eq_hit_fail {ch ch1 ch2 ch3 : Channel} {v : Int}
    {e : SendError} (sample : Int) (count : Nat)
    (h : recvChoiceOp ch = (ch1, some true))
    (h' : recvIntOp ch1 = (ch2, some v)) (hv : v = sample)
    (h3 : sendChoiceOp false (logEv (Ev.compare v sample) ch2) = (ch3, some e)) :
    serverLoop sample count ch = (ch3, Except.error (DrvErr.send e)) := by
  rw [serverLoop_eq_hit sample count h h' hv, h3]

theorem serverLoop_eq_hit_fail2 {ch ch1 ch2 ch3 ch4 : Channel} {v : Int}
    {e : SendError} (sample : Int) (count : Nat)
    (h : recvChoiceOp ch = (ch1, some true))
    (h' : recvIntOp ch1 = (ch2, some v)) (hv : v = sample)
    (h3 : sendChoiceOp false (logEv (Ev.compare v sample) ch2) = (ch3, none))
    (h4 : sendNatOp count ch3 = (ch4, some e)) :
    serverLoop sample count ch = (ch4, Except.error (DrvErr.send e)) := by
  rw [serverLoop_eq_hit sample count h h' hv]
  simp only [h3, h4]

theorem serverLoop_eq_hit_ok {ch ch1 ch2 ch3 ch4 : Channel} {v : Int}
    (sample : Int) (count : Nat)
    (h : recvChoiceOp ch = (ch1, some true))
    (h' : recvIntOp ch1 = (ch2, some v)) (hv : v = sample)
    (h3 : sendChoiceOp false (logEv (Ev.compare v sample) ch2) = (ch3, none))
    (h4 : sendNatOp count ch3 = (ch4, none)) :
    serverLoop sample count ch = (ch4, Except.ok false) := by
  rw [serverLoop_eq_hit sample count h h' hv]
  simp only [h3, h4]

theorem serverLoop_eq_miss_fail {ch ch1 ch2 ch3 : Channel} {v : Int}
    {e : SendError} (sample : Int) (count : Nat)
    (h : recvChoiceOp ch = (ch1, some true))
    (h' : recvIntOp ch1 = (ch2, some v)) (hv : ¬ v = sample)
    (h3 : sendChoiceOp true (logEv (Ev.compare v sample) ch2) = (ch3, some e)) :
    serverLoop sample count ch = (ch3, Except.error (DrvErr.send e)) := by
  rw [serverLoop_eq_miss sample count h h' hv, h3]

theorem serverLoop_eq_miss_cont {ch ch1 ch2 ch3 : Channel} {v : Int}
    (sample : Int) (count : Nat)
    (h : recvChoiceOp ch = (ch1, some true))
    (h' : recvIntOp ch1 = (ch2, some v)) (hv : ¬ v = sample)
    (h3 : sendChoiceOp true (logEv (Ev.compare v sample) ch2) = (ch3, none)) :
    serverLoop sample count ch = serverLoop sample (count + 1) ch3 := by
  rw [serverLoop_eq_miss sample count h h' hv, h3]

/- ## Trace lemmas: what each driver does on the expected wire bytes -/

theorem serverLoop_trace (sample : Int) (vs : List Int) :
    ∀ (count : Nat) (rest out : List Nat) (lg : List Ev),
      (∀ v ∈ vs, inI64 v) → count + vs.length ≤ 2 ^ 64 →
      serverLoop sample count ⟨scanC2S sample vs ++ rest, out, true, [], lg⟩ =
        (⟨rest, out ++ scanS2C sample count vs, true, [],
            lg ++ serverScanLog sample count vs⟩,
          Except.ok false) := by
  induction vs with
  | nil =>
    intro count rest out lg _ _
    rw [serverLoop_eq_done sample count (by simp [scanC2S]; exact recvChoiceOp_at false rest out true [] lg)]
    simp [scanS2C, serverScanLog]
  | cons v vs ih =>
    intro count rest out lg hvs hcnt
    have hv : inI64 v := hvs v (by simp)
    by_cases hm : v = sample
    · have s1 : recvChoiceOp ⟨scanC2S sample (v :: vs) ++ rest, out, true, [], lg⟩ =
          (⟨encodeInt v ++ rest, out, true, [], lg ++ [Ev.recvChoice (some true)]⟩, some true) := by
        simp only [scanC2S, hm, if_pos rfl, List.append_assoc, List.nil_append]
        exact recvChoiceOp_at true _ out true [] lg
      have s2 : recvIntOp ⟨encodeInt v ++ rest, out, true, [], lg ++ [Ev.recvChoice (some true)]⟩ =
          (⟨rest, out, true, [], lg ++ [Ev.recvChoice (some true)] ++ [Ev.recvInt (some v)]⟩, some v) := by
        have := recvIntOp_at v hv rest out true [] (lg ++ [Ev.recvChoice (some true)])
        simpa using this
      rw [serverLoop_eq_hit sample count s1 s2 hm]
      have hc : count < 2 ^ 64 := by simp at hcnt; omega
      simp only [logEv, sendChoiceOp_nofault, sendNatOp_nofault]
      simp [scanS2C, serverScanLog, hm, List.append_assoc]
    · have s1 : recvChoiceOp ⟨scanC2S sample (v :: vs) ++ rest, out, true, [], lg⟩ =
          (⟨encodeInt v ++ (scanC2S sample vs ++ rest), out, true, [], lg ++ [Ev.recvChoice (some true)]⟩, some true) := by
        simp only [scanC2S, hm, if_neg hm, List.append_assoc]
        exact recvChoiceOp_at true _ out true [] lg
      have s2 : recvIntOp ⟨encodeInt v ++ (scanC2S sample vs ++ rest), out, true, [], lg ++ [Ev.recvChoice (some true)]⟩ =
          (⟨scanC2S sample vs ++ rest, out, true, [], lg ++ [Ev.recvChoice (some true)] ++ [Ev.recvInt (some v)]⟩, some v) := by
        have := recvIntOp_at v hv (scanC2S sample vs ++ rest) out true [] (lg ++ [Ev.recvChoice (some true)])
        simpa using this
      rw [serverLoop_eq_miss sample count s1 s2 hm]
      simp only [logEv, sendChoiceOp_nofault]
      have := ih (count + 1) rest (out ++ encodeBool true)
        ((lg ++ [Ev.recvChoice (some true)] ++ [Ev.recvInt (some v)]) ++
          [Ev.compare v sample] ++ [Ev.sendChoice true none])
        (fun w hw => hvs w (by simp [hw])) (by simp at hcnt ⊢; omega)
      rw [this]
      simp [scanS2C, serverScanLog, hm, List.append_assoc]

theorem clientLoop_trace (sample : Int) (vs : List Int) :
    ∀ (count : Nat) (rest out : List Nat) (lg : List Ev),
      count + vs.length ≤ 2 ^ 64 →
      clientLoop ⟨scanS2C sample count vs ++ rest, out, true, [], lg⟩ vs =
        (⟨rest, out ++ scanC2S sample vs, true, [],
            lg ++ clientScanLog sample count vs⟩,
          Except.ok (firstIdxFrom sample count vs), afterMatch sample vs) := by
  induction vs with
  | nil =>
    intro count rest out lg _
    simp [clientLoop, scanS2C, scanC2S, clientScanLog, firstIdxFrom, afterMatch,
      sendChoiceOp_nofault]
  | cons v vs ih =>
    intro count rest out lg hcnt
    by_cases hm : v = sample
    · have hc : count < 2 ^ 64 := by simp at hcnt; omega
      have hs : scanS2C sample count (v :: vs) = encodeBool false ++ encodeNat count := by
        rw [scanS2C, if_pos hm]
      simp only [clientLoop, sendChoiceOp_nofault, sendIntOp_nofault, hs,
        List.append_assoc]
      simp only [recvChoiceOp_at]
      simp only [Bool.false_eq_true, if_false, recvNatOp_at count hc]
      simp [clientScanLog, firstIdxFrom, afterMatch, scanC2S, hm,
        List.append_assoc]
    · have hs : scanS2C sample count (v :: vs) =
          encodeBool true ++ scanS2C sample (count + 1) vs := by
        rw [scanS2C, if_neg hm]
      simp only [clientLoop, sendChoiceOp_nofault, sendIntOp_nofault, hs,
        List.append_assoc]
      simp only [recvChoiceOp_at]
      simp only [if_true]
      have := ih (count + 1) rest (out ++ (encodeBool true ++ encodeInt v))
        (lg ++ [Ev.sendChoice true none] ++ [Ev.sendInt v none] ++
          [Ev.recvChoice (some true)])
        (by simp at hcnt ⊢; omega)
      simp only [List.append_assoc] at this ⊢
      rw [this]
      simp [clientScanLog, firstIdxFrom, afterMatch, scanC2S, hm,
        List.append_assoc]

/- ## Decode-parameterised operation lemmas -/

theorem recvChoiceOp_decode {inp : List Nat} {c : Bool} {r : List Nat}
    (h : decodeBool inp = some (c, r)) (out : List Nat) (fl : Bool)
    (fs : List SendFault) (lg : List Ev) :
    recvChoiceOp ⟨inp, out, fl, fs, lg⟩ =
      (⟨r, out, fl, fs, lg ++ [Ev.recvChoice (some c)]⟩, some c) := by
  simp [recvChoiceOp, Channel.recv_choice, Value.recv, dec_bool, h, logEv,
    Value.new, Value.get]

theorem recvIntOp_decode {inp : List Nat} {v : Int} {r : List Nat}
    (h : decodeInt inp = some (v, r)) (out : List Nat) (fl : Bool)
    (fs : List SendFault) (lg : List Ev) :
    recvIntOp ⟨inp, out, fl, fs, lg⟩ =
      (⟨r, out, fl, fs, lg ++ [Ev.recvInt (some v)]⟩, some v) := by
  simp [recvIntOp, Value.recv, dec_int, h, logEv, Value.new, Value.get]

theorem recvNatOp_decode {inp : List Nat} {n : Nat} {r : List Nat}
    (h : decodeNat inp = some (n, r)) (out : List Nat) (fl : Bool)
    (fs : List SendFault) (lg : List Ev) :
    recvNatOp ⟨inp, out, fl, fs, lg⟩ =
      (⟨r, out, fl, fs, lg ++ [Ev.recvNat (some n)]⟩, some n) := by
  simp [recvNatOp, Value.recv, dec_nat, h, logEv, Value.new, Value.get]

theorem sendChoiceOp_log (b : Bool) (ch : Channel) :
    ((sendChoiceOp b ch).1).log = ch.log ++ [Ev.sendChoice b (sendChoiceOp b ch).2] := by
  unfold sendChoiceOp Channel.send_choice Value.send sendBytes
  cases hf : ch.faults with
  | nil => simp [logEv]
  | cons f fs =>
    by_cases h1 : f.serializeFault <;> by_cases h2 : f.flushFault <;>
      simp [logEv, h1, h2]

theorem sendIntOp_log (v : Int) (ch : Channel) :
    ((sendIntOp v ch).1).log = ch.log ++ [Ev.sendInt v (sendIntOp v ch).2] := by
  unfold sendIntOp Value.send sendBytes
  cases hf : ch.faults with
  | nil => simp [logEv]
  | cons f fs =>
    by_cases h1 : f.serializeFault <;> by_cases h2 : f.flushFault <;>
      simp [logEv, h1, h2]

theorem sendNatOp_log (n : Nat) (ch : Channel) :
    ((sendNatOp n ch).1).log = ch.log ++ [Ev.sendNat n (sendNatOp n ch).2] := by
  unfold sendNatOp Value.send sendBytes
  cases hf : ch.faults with
  | nil => simp [logEv]
  | cons f fs =>
    by_cases h1 : f.serializeFault <;> by_cases h2 : f.flushFault <;>
      simp [logEv, h1, h2]

theorem recvChoiceOp_log (ch : Channel) :
    ((recvChoiceOp ch).1).log = ch.log ++ [Ev.recvChoice (recvChoiceOp ch).2] := by
  unfold recvChoiceOp Channel.recv_choice Value.recv
  rw [dec_bool]
  cases hd : decodeBool ch.input <;> simp [logEv]

theorem recvIntOp_log (ch : Channel) :
    ((recvIntOp ch).1).log = ch.log ++ [Ev.recvInt (recvIntOp ch).2] := by
  unfold recvIntOp Value.recv
  rw [dec_int]
  cases hd : decodeInt ch.input <;> simp [logEv]

theorem recvNatOp_log (ch : Channel) :
    ((recvNatOp ch).1).log = ch.log ++ [Ev.recvNat (recvNatOp ch).2] := by
  unfold recvNatOp Value.recv
  rw [dec_nat]
  cases hd : decodeNat ch.input <;> simp [logEv]

/- ## Full-run trace lemmas -/

theorem serverRun_trace (sample : Int) (vs : List Int) (rest out : List Nat)
    (lg : List Ev) (hsam : inI64 sample) (hvs : ∀ v ∈ vs, inI64 v)
    (hlen : vs.length ≤ 2 ^ 64) :
    serverRun ⟨sessC2S sample vs ++ rest, out, true, [], lg⟩ =
      (⟨rest, out ++ sessS2C sample vs, true, [],
          lg ++ (Ev.recvChoice (some true) :: Ev.recvInt (some sample) ::
            serverScanLog sample 0 vs)⟩,
        Except.ok false) := by
  simp only [sessC2S, List.append_assoc, serverRun]
  simp only [recvChoiceOp_at, if_true, recvIntOp_at sample hsam]
  have := serverLoop_trace sample vs 0 rest out
    (lg ++ [Ev.recvChoice (some true)] ++ [Ev.recvInt (some sample)]) hvs
    (by omega)
  simp only [List.append_assoc] at this ⊢
  rw [this]
  simp [sessS2C, List.append_assoc]

theorem clientRun_trace (sample : Int) (vs : List Int) (rest out : List Nat)
    (lg : List Ev) (hlen : vs.length ≤ 2 ^ 64) :
    clientRun ⟨sessS2C sample vs ++ rest, out, true, [], lg⟩ sample vs =
      (⟨rest, out ++ sessC2S sample vs, true, [],
          lg ++ (Ev.sendChoice true none :: Ev.sendInt sample none ::
            clientScanLog sample 0 vs)⟩,
        Except.ok (firstIdx sample vs), afterMatch sample vs) := by
  simp only [clientRun, sendChoiceOp_nofault, sendIntOp_nofault, sessS2C]
  have := clientLoop_trace sample vs 0 rest
    (out ++ (encodeBool true ++ encodeInt sample))
    (lg ++ [Ev.sendChoice true none] ++ [Ev.sendInt sample none])
    (by omega)
  simp only [List.append_assoc] at this ⊢
  rw [this]
  simp [sessC2S, firstIdx, List.append_assoc]

theorem serverRun_quit (rest out : List Nat) (fl : Bool) (fs : List SendFault)
    (lg : List Ev) :
    serverRun ⟨encodeBool false ++ rest, out, fl, fs, lg⟩ =
      (⟨rest, out, fl, fs, lg ++ [Ev.recvChoice (some false)]⟩,
        Except.ok true) := by
  simp only [serverRun, recvChoiceOp_at]
  simp

theorem sendChoiceOp_eq_input {b : Bool} {ch ch1 : Channel} {r : Option SendError}
    (h : sendChoiceOp b ch = (ch1, r)) : ch1.input = ch.input := by
  have h2 := congrArg (fun p => p.1.input) h
  simpa [sendChoiceOp_fst_input] using h2.symm

theorem serverLoop_ok_false (sample : Int) :
    ∀ (n count : Nat) (ch ch' : Channel) (b : Bool),
      ch.input.length ≤ n → serverLoop sample count ch = (ch', Except.ok b) →
      b = false := by
  intro n
  induction n with
  | zero =>
    intro count ch ch' b hlen h
    obtain ⟨inp, out, fl, fs, lg⟩ := ch
    have hinp : inp = [] := by
      simp only [Channel.input] at hlen  -- wait projection; see below
      exact List.length_eq_zero.mp (Nat.le_zero.mp hlen)
    subst hinp
    rw [serverLoop_eq_failChoice sample count
      (recvChoiceOp_fail (show decodeBool [] = none from rfl) out fl fs lg)] at h
    simp at h
  | succ n ih =>
    intro count ch ch' b hlen h
    obtain ⟨inp, out, fl, fs, lg⟩ := ch
    cases hd : decodeBool inp with
    | none =>
      rw [serverLoop_eq_failChoice sample count
        (recvChoiceOp_fail hd out fl fs lg)] at h
      simp at h
    | some p =>
      obtain ⟨c, rest1⟩ := p
      have s1 := recvChoiceOp_decode hd out fl fs lg
      cases c with
      | false =>
        rw [serverLoop_eq_done sample count s1] at h
        injection h with hA hB
        injection hB with hB
        exact hB.symm
      | true =>
        cases he : decodeInt rest1 with
        | none =>
          rw [serverLoop_eq_failRecv sample count s1
            (recvIntOp_fail he out fl fs (lg ++ [Ev.recvChoice (some true)]))] at h
          simp at h
        | some q =>
          obtain ⟨v, rest2⟩ := q
          have s2 := recvIntOp_decode he out fl fs (lg ++ [Ev.recvChoice (some true)])
          by_cases hv : v = sample
          · rw [serverLoop_eq_hit sample count s1 s2 hv] at h
            split at h
            · simp at h
            · split at h
              · simp at h
              · injection h with hA hB
                injection hB with hB
                exact hB.symm
          · rw [serverLoop_eq_miss sample count s1 s2 hv] at h
            split at h
            · simp at h
            · next ch3 heq =>
              refine ih (count + 1) ch3 ch' b ?_ h
              have e3 : ch3.input = rest2 := by
                have := sendChoiceOp_eq_input heq
                simpa [logEv] using this
              have l1 : rest1.length < inp.length := decodeBool_shrink hd
              have l2 : rest2.length < rest1.length := decodeInt_shrink he
              simp only [Channel.input] at hlen
              rw [e3]
              omega

/- ## First-occurrence index lemmas -/

theorem firstIdx_cons (sample v : Int) (vs : List Int) :
    firstIdx sample (v :: vs) =
      if v = sample then some 0 else (firstIdx sample vs).map (· + 1) := by
  have hmap : ∀ (l : List Int) (count : Nat),
      firstIdxFrom sample count l = (firstIdxFrom sample 0 l).map (· + count) := by
    intro l
    induction l with
    | nil => intro count; simp [firstIdxFrom]
    | cons w ws ihw =>
      intro count
      by_cases hw : w = sample
      · simp [firstIdxFrom, hw]
      · rw [firstIdxFrom, firstIdxFrom, if_neg hw, if_neg hw, ihw (count + 1), ihw 1]
        cases hF : firstIdxFrom sample 0 ws <;> simp <;> omega
  unfold firstIdx
  by_cases hv : v = sample
  · simp [firstIdxFrom, hv]
  · rw [firstIdxFrom, if_neg hv, if_neg hv]
    exact hmap vs 1

theorem firstIdx_none_iff (sample : Int) (vs : List Int) :
    firstIdx sample vs = none ↔ sample ∉ vs := by
  induction vs with
  | nil => simp [firstIdx, firstIdxFrom]
  | cons v vs ih =>
    rw [firstIdx_cons]
    by_cases hv : v = sample
    · simp [hv]
    · simp only [if_neg hv, Option.map_eq_none', ih, List.mem_cons]
      constructor
      · intro hns hmem
        rcases hmem with hmem | hmem
        · exact hv hmem.symm
        · exact hns hmem
      · intro hns hmem
        exact hns (Or.inr hmem)

theorem firstIdx_first_occurrence (sample : Int) (vs : List Int) :
    ∀ (i : Nat), firstIdx sample vs = some i →
      i < vs.length ∧ vs.getD i 0 = sample ∧ ∀ j < i, vs.getD j 0 ≠ sample := by
  induction vs with
  | nil => intro i h; simp [firstIdx, firstIdxFrom] at h
  | cons v vs ih =>
    intro i h
    rw [firstIdx_cons] at h
    by_cases hv : v = sample
    · rw [if_pos hv] at h
      injection h with h
      subst h
      refine ⟨by simp, by simpa using hv, by omega⟩
    · rw [if_neg hv] at h
      cases hF : firstIdx sample vs with
      | none => rw [hF] at h; simp at h
      | some i' =>
        rw [hF] at h
        simp only [Option.map_some'] at h
        injection h with h
        obtain ⟨ih1, ih2, ih3⟩ := ih i' hF
        subst h
        refine ⟨by simpa using ih1, by simpa using ih2, ?_⟩
        intro j hj
        cases j with
        | zero => simpa using hv
        | succ j' =>
          have := ih3 j' (by omega)
          simpa using this

/- ## Abort-at-first-failure machinery -/

theorem errOf_ok {β : Type} (b : β) : errOf (Except.ok b : Except DrvErr β) = none := rfl

theorem errOf_error {β : Type} (e : DrvErr) :
    errOf (Except.error e : Except DrvErr β) = some e := rfl

theorem cleanLog_nil : cleanLog [] := by
  intro x hx
  cases hx

theorem abortsAtFirst_ok_of (news : List Ev) {log0 : List Ev} {ch : Channel}
    (hlog : ch.log = log0 ++ news) (hclean : cleanLog news) :
    abortsAtFirst log0 ch none :=
  ⟨news, hlog, fun _ => hclean, fun _ he => absurd he (by simp)⟩

theorem abortsAtFirst_fail (ev : Ev) {log0 : List Ev} {e : DrvErr} {ch : Channel}
    (hlog : ch.log = log0 ++ [ev]) (hev : evErr ev = some e) :
    abortsAtFirst log0 ch (some e) := by
  refine ⟨[ev], hlog, fun h => absurd h (by simp), ?_⟩
  intro e' he'
  refine ⟨[], ev, by simp, cleanLog_nil, ?_⟩
  injection he' with he'
  rw [← he']
  exact hev

theorem abortsAtFirst_cons (ev : Ev) {log0 : List Ev} {ch : Channel}
    {r : Option DrvErr} (hev : evErr ev = none)
    (h : abortsAtFirst (log0 ++ [ev]) ch r) : abortsAtFirst log0 ch r := by
  obtain ⟨news, hlog, hok, herr⟩ := h
  refine ⟨ev :: news, by rw [hlog]; simp, ?_, ?_⟩
  · intro hr x hx
    rcases List.mem_cons.mp hx with hx | hx
    · rw [hx]; exact hev
    · exact hok hr x hx
  · intro e hr
    obtain ⟨pre, last, hsplit, hclean, hlast⟩ := herr e hr
    refine ⟨ev :: pre, last, by rw [hsplit]; simp, ?_, hlast⟩
    intro x hx
    rcases List.mem_cons.mp hx with hx | hx
    · rw [hx]; exact hev
    · exact hclean x hx

theorem sendChoiceOp_pair_log {b : Bool} {ch ch1 : Channel} {r : Option SendError}
    (h : sendChoiceOp b ch = (ch1, r)) :
    ch1.log = ch.log ++ [Ev.sendChoice b r] := by
  have h2 := sendChoiceOp_log b ch
  rw [h] at h2
  simpa using h2

theorem sendIntOp_pair_log {v : Int} {ch ch1 : Channel} {r : Option SendError}
    (h : sendIntOp v ch = (ch1, r)) :
    ch1.log = ch.log ++ [Ev.sendInt v r] := by
  have h2 := sendIntOp_log v ch
  rw [h] at h2
  simpa using h2

theorem sendNatOp_pair_log {n : Nat} {ch ch1 : Channel} {r : Option SendError}
    (h : sendNatOp n ch = (ch1, r)) :
    ch1.log = ch.log ++ [Ev.sendNat n r] := by
  have h2 := sendNatOp_log n ch
  rw [h] at h2
  simpa using h2

theorem recvChoiceOp_pair_log {ch ch1 : Channel} {r : Option Bool}
    (h : recvChoiceOp ch = (ch1, r)) :
    ch1.log = ch.log ++ [Ev.recvChoice r] := by
  have h2 := recvChoiceOp_log ch
  rw [h] at h2
  simpa using h2

theorem recvIntOp_pair_log {ch ch1 : Channel} {r : Option Int}
    (h : recvIntOp ch = (ch1, r)) :
    ch1.log = ch.log ++ [Ev.recvInt r] := by
  have h2 := recvIntOp_log ch
  rw [h] at h2
  simpa using h2

theorem recvNatOp_pair_log {ch ch1 : Channel} {r : Option Nat}
    (h : recvNatOp ch = (ch1, r)) :
    ch1.log = ch.log ++ [Ev.recvNat r] := by
  have h2 := recvNatOp_log ch
  rw [h] at h2
  simpa using h2

theorem clientLoop_aborts (vs : List Int) :
    ∀ (ch : Channel),
      abortsAtFirst ch.log ((clientLoop ch vs).1) (errOf (clientLoop ch vs).2.1) := by
  induction vs with
  | nil =>
    intro ch
    rcases hp : sendChoiceOp false ch with ⟨ch1, rr⟩
    have hlog := sendChoiceOp_pair_log hp
    cases rr with
    | none =>
      simp only [clientLoop, hp, errOf]
      exact abortsAtFirst_ok_of [Ev.sendChoice false none] hlog
        (by intro x hx; simp at hx; rw [hx]; rfl)
    | some e =>
      simp only [clientLoop, hp, errOf]
      exact abortsAtFirst_fail (Ev.sendChoice false (some e)) hlog rfl
  | cons v vs ih =>
    intro ch
    rcases hp1 : sendChoiceOp true ch with ⟨ch1, r1⟩
    have hl1 := sendChoiceOp_pair_log hp1
    cases r1 with
    | some e =>
      simp only [clientLoop, hp1, errOf]
      exact abortsAtFirst_fail (Ev.sendChoice true (some e)) hl1 rfl
    | none =>
      rcases hp2 : sendIntOp v ch1 with ⟨ch2, r2⟩
      have hl2 := sendIntOp_pair_log hp2
      cases r2 with
      | some e =>
        simp only [clientLoop, hp1, hp2, errOf]
        refine abortsAtFirst_cons (Ev.sendChoice true none) rfl
          (abortsAtFirst_fail (Ev.sendInt v (some e)) ?_ rfl)
        rw [hl2, hl1]
      | none =>
        rcases hp3 : recvChoiceOp ch2 with ⟨ch3, r3⟩
        have hl3 := recvChoiceOp_pair_log hp3
        cases r3 with
        | none =>
          simp only [clientLoop, hp1, hp2, hp3, errOf]
          refine abortsAtFirst_cons (Ev.sendChoice true none) rfl
            (abortsAtFirst_cons (Ev.sendInt v none) rfl
              (abortsAtFirst_fail (Ev.recvChoice none) ?_ rfl))
          rw [hl3, hl2, hl1]
        | some c =>
          cases c with
          | true =>
            simp only [clientLoop, hp1, hp2, hp3, if_true]
            have hrec := ih ch3
            rw [hl3, hl2, hl1] at hrec
            refine abortsAtFirst_cons (Ev.sendChoice true none) rfl
              (abortsAtFirst_cons (Ev.sendInt v none) rfl
                (abortsAtFirst_cons (Ev.recvChoice (some true)) rfl ?_))
            simpa [List.append_assoc] using hrec
          | false =>
            rcases hp4 : recvNatOp ch3 with ⟨ch4, r4⟩
            have hl4 := recvNatOp_pair_log hp4
            cases r4 with
            | none =>
              simp only [clientLoop, hp1, hp2, hp3, Bool.false_eq_true,
                if_false, hp4, errOf]
              refine abortsAtFirst_cons (Ev.sendChoice true none) rfl
                (abortsAtFirst_cons (Ev.sendInt v none) rfl
                  (abortsAtFirst_cons (Ev.recvChoice (some false)) rfl
                    (abortsAtFirst_fail (Ev.recvNat none) ?_ rfl)))
              rw [hl4, hl3, hl2, hl1]
            | some idx =>
              simp only [clientLoop, hp1, hp2, hp3, Bool.false_eq_true,
                if_false, hp4, errOf]
              refine abortsAtFirst_ok_of
                [Ev.sendChoice true none, Ev.sendInt v none,
                  Ev.recvChoice (some false), Ev.recvNat (some idx)] ?_ ?_
              · rw [hl4, hl3, hl2, hl1]
                simp
              · intro x hx
                simp at hx
                rcases hx with h | h | h | h <;> rw [h] <;> rfl

theorem clientRun_aborts (ch : Channel) (sample : Int) (values : List Int) :
    abortsAtFirst ch.log ((clientRun ch sample values).1)
      (errOf (clientRun ch sample values).2.1) := by
  rcases hp1 : sendChoiceOp true ch with ⟨ch1, r1⟩
  have hl1 := sendChoiceOp_pair_log hp1
  cases r1 with
  | some e =>
    simp only [clientRun, hp1, errOf]
    exact abortsAtFirst_fail (Ev.sendChoice true (some e)) hl1 rfl
  | none =>
    rcases hp2 : sendIntOp sample ch1 with ⟨ch2, r2⟩
    have hl2 := sendIntOp_pair_log hp2
    cases r2 with
    | some e =>
      simp only [clientRun, hp1, hp2, errOf]
      refine abortsAtFirst_cons (Ev.sendChoice true none) rfl
        (abortsAtFirst_fail (Ev.sendInt sample (some e)) ?_ rfl)
      rw [hl2, hl1]
    | none =>
      simp only [clientRun, hp1, hp2]
      have hrec := clientLoop_aborts values ch2
      rw [hl2, hl1] at hrec
      refine abortsAtFirst_cons (Ev.sendChoice true none) rfl
        (abortsAtFirst_cons (Ev.sendInt sample none) rfl ?_)
      exact hrec

theorem serverLoop_aborts (sample : Int) :
    ∀ (n count : Nat) (ch : Channel), ch.input.length ≤ n →
      abortsAtFirst ch.log ((serverLoop sample count ch).1)
        (errOf (serverLoop sample count ch).2) := by
  intro n
  induction n with
  | zero =>
    intro count ch hlen
    obtain ⟨inp, out, fl, fs, lg⟩ := ch
    have hinp : inp = [] := by
      simp only [Channel.input] at hlen
      exact List.length_eq_zero.mp (Nat.le_zero.mp hlen)
    subst hinp
    rw [serverLoop_eq_failChoice sample count
      (recvChoiceOp_fail (show decodeBool [] = none from rfl) out fl fs lg)]
    exact abortsAtFirst_fail (Ev.recvChoice none) rfl rfl
  | succ n ih =>
    intro count ch hlen
    obtain ⟨inp, out, fl, fs, lg⟩ := ch
    cases hd : decodeBool inp with
    | none =>
      rw [serverLoop_eq_failChoice sample count
        (recvChoiceOp_fail hd out fl fs lg)]
      exact abortsAtFirst_fail (Ev.recvChoice none) rfl rfl
    | some p =>
      obtain ⟨c, rest1⟩ := p
      have s1 := recvChoiceOp_decode hd out fl fs lg
      cases c with
      | false =>
        rw [serverLoop_eq_done sample count s1]
        exact abortsAtFirst_ok_of [Ev.recvChoice (some false)] rfl
          (by intro x hx; simp at hx; rw [hx]; rfl)
      | true =>
        cases he : decodeInt rest1 with
        | none =>
          rw [serverLoop_eq_failRecv sample count s1
            (recvIntOp_fail he out fl fs (lg ++ [Ev.recvChoice (some true)]))]
          exact abortsAtFirst_cons (Ev.recvChoice (some true)) rfl
            (abortsAtFirst_fail (Ev.recvInt none) rfl rfl)
        | some q =>
          obtain ⟨v, rest2⟩ := q
          have s2 := recvIntOp_decode he out fl fs (lg ++ [Ev.recvChoice (some true)])
          by_cases hv : v = sample
          · rcases hp : sendChoiceOp false (logEv (Ev.compare v sample)
              ⟨rest2, out, fl, fs,
                lg ++ [Ev.recvChoice (some true)] ++ [Ev.recvInt (some v)]⟩) with ⟨ch3, r3⟩
            have hl3 := sendChoiceOp_pair_log hp
            simp only [logEv] at hl3
            cases r3 with
            | some e =>
              rw [serverLoop_eq_hit_fail sample count s1 s2 hv hp]
              refine abortsAtFirst_cons (Ev.recvChoice (some true)) rfl
                (abortsAtFirst_cons (Ev.recvInt (some v)) rfl
                  (abortsAtFirst_cons (Ev.compare v sample) rfl
                    (abortsAtFirst_fail (Ev.sendChoice false (some e)) ?_ rfl)))
              rw [hl3]
            | none =>
              rcases hq : sendNatOp count ch3 with ⟨ch4, r4⟩
              have hl4 := sendNatOp_pair_log hq
              cases r4 with
              | some e =>
                rw [serverLoop_eq_hit_fail2 sample count s1 s2 hv hp hq]
                refine abortsAtFirst_cons (Ev.recvChoice (some true)) rfl
                  (abortsAtFirst_cons (Ev.recvInt (some v)) rfl
                    (abortsAtFirst_cons (Ev.compare v sample) rfl
                      (abortsAtFirst_cons (Ev.sendChoice false none) rfl
                        (abortsAtFirst_fail (Ev.sendNat count (some e)) ?_ rfl))))
                rw [hl4, hl3]
              | none =>
                rw [serverLoop_eq_hit_ok sample count s1 s2 hv hp hq]
                refine abortsAtFirst_ok_of
                  [Ev.recvChoice (some true), Ev.recvInt (some v),
                    Ev.compare v sample, Ev.sendChoice false none,
                    Ev.sendNat count none] ?_ ?_
                · rw [hl4, hl3]
                  simp
                · intro x hx
                  simp at hx
                  rcases hx with h | h | h | h | h <;> rw [h] <;> rfl
          · rcases hp : sendChoiceOp true (logEv (Ev.compare v sample)
              ⟨rest2, out, fl, fs,
                lg ++ [Ev.recvChoice (some true)] ++ [Ev.recvInt (some v)]⟩) with ⟨ch3, r3⟩
            have hl3 := sendChoiceOp_pair_log hp
            simp only [logEv] at hl3
            cases r3 with
            | some e =>
              rw [serverLoop_eq_miss_fail sample count s1 s2 hv hp]
              refine abortsAtFirst_cons (Ev.recvChoice (some true)) rfl
                (abortsAtFirst_cons (Ev.recvInt (some v)) rfl
                  (abortsAtFirst_cons (Ev.compare v sample) rfl
                    (abortsAtFirst_fail (Ev.sendChoice true (some e)) ?_ rfl)))
              rw [hl3]
            | none =>
              rw [serverLoop_eq_miss_cont sample count s1 s2 hv hp]
              have e3 : ch3.input = rest2 := by
                have := sendChoiceOp_eq_input hp
                simpa [logEv] using this
              have l1 : rest1.length < inp.length := decodeBool_shrink hd
              have l2 : rest2.length < rest1.length := decodeInt_shrink he
              have hrec := ih (count + 1) ch3 (by
                simp only [Channel.input] at hlen
                rw [e3]
                omega)
              rw [hl3] at hrec
              refine abortsAtFirst_cons (Ev.recvChoice (some true)) rfl
                (abortsAtFirst_cons (Ev.recvInt (some v)) rfl
                  (abortsAtFirst_cons (Ev.compare v sample) rfl
                    (abortsAtFirst_cons (Ev.sendChoice true none) rfl ?_)))
              simpa [List.append_assoc] using hrec

theorem serverRun_aborts (ch : Channel) :
    abortsAtFirst ch.log ((serverRun ch).1) (errOf (serverRun ch).2) := by
  obtain ⟨inp, out, fl, fs, lg⟩ := ch
  cases hd : decodeBool inp with
  | none =>
    simp only [serverRun, recvChoiceOp_fail hd, errOf]
    exact abortsAtFirst_fail (Ev.recvChoice none) rfl rfl
  | some p =>
    obtain ⟨c, rest1⟩ := p
    cases c with
    | false =>
      simp only [serverRun, recvChoiceOp_decode hd, Bool.false_eq_true,
        if_false, errOf]
      exact abortsAtFirst_ok_of [Ev.recvChoice (some false)] rfl
        (by intro x hx; simp at hx; rw [hx]; rfl)
    | true =>
      simp only [serverRun, recvChoiceOp_decode hd, if_true]
      cases he : decodeInt rest1 with
      | none =>
        simp only [recvIntOp_fail he, errOf]
        exact abortsAtFirst_cons (Ev.recvChoice (some true)) rfl
          (abortsAtFirst_fail (Ev.recvInt none) rfl rfl)
      | some q =>
        obtain ⟨v, rest2⟩ := q
        simp only [recvIntOp_decode he]
        have hrec := serverLoop_aborts v rest2.length 0
          ⟨rest2, out, fl, fs, lg ++ [Ev.recvChoice (some true)] ++ [Ev.recvInt (some v)]⟩
          (by simp)
        refine abortsAtFirst_cons (Ev.recvChoice (some true)) rfl
          (abortsAtFirst_cons (Ev.recvInt (some v)) rfl ?_)
        simpa [List.append_assoc] using hrec

/- ## Claim theorems -/

/-- C2: for every value of a type encodable by the codec (isize in its
64-bit range, usize in its 64-bit range, bool), sending it through the
carrier writes exactly its encoding and succeeds, and receiving on a
stream carrying exactly those bytes yields the value back unchanged:
decode after encode is the identity. -/
theorem codec_round_trip (v : Int) (n : Nat) (b : Bool) (ch : Channel)
    (hv : inI64 v) (hn : n < 2 ^ 64) (hf : ch.faults = [])
    (rest out : List Nat) (fl : Bool) (fs : List SendFault) (lg : List Ev) :
    (((Value.new v).send ch).2 = none ∧
      ((Value.new v).send ch).1.output = ch.output ++ encodeInt v ∧
      Value.recv (α := Int) ⟨encodeInt v ++ rest, out, fl, fs, lg⟩ =
        (⟨rest, out, fl, fs, lg⟩, some (Value.new v))) ∧
    (((Value.new n).send ch).2 = none ∧
      ((Value.new n).send ch).1.output = ch.output ++ encodeNat n ∧
      Value.recv (α := Nat) ⟨encodeNat n ++ rest, out, fl, fs, lg⟩ =
        (⟨rest, out, fl, fs, lg⟩, some (Value.new n))) ∧
    (((Value.new b).send ch).2 = none ∧
      ((Value.new b).send ch).1.output = ch.output ++ encodeBool b ∧
      Value.recv (α := Bool) ⟨encodeBool b ++ rest, out, fl, fs, lg⟩ =
        (⟨rest, out, fl, fs, lg⟩, some (Value.new b))) := by
  refine ⟨⟨?_, ?_, ?_⟩, ⟨?_, ?_, ?_⟩, ⟨?_, ?_, ?_⟩⟩
  · simp [Value.send, sendBytes, hf]
  · simp [Value.send, sendBytes, hf, Value.new, enc_int]
  · simp [Value.recv, dec_int, decodeInt_encodeInt v hv]
  · simp [Value.send, sendBytes, hf]
  · simp [Value.send, sendBytes, hf, Value.new, enc_nat]
  · simp [Value.recv, dec_nat, decodeNat_encodeNat n hn]
  · simp [Value.send, sendBytes, hf]
  · simp [Value.send, sendBytes, hf, Value.new, enc_bool]
  · simp [Value.recv, dec_bool, decodeBool_encodeBool b]

/-- C2 witness: the round trip evaluated at the concrete isize value
100000 (which uses the full int64 wire form) with trailing bytes [5]. -/
theorem codec_round_trip_witness :
    Value.recv (α := Int) ⟨encodeInt 100000 ++ [5], [], true, [], []⟩ =
      (⟨[5], [], true, [], []⟩, some (Value.new 100000)) :=
  (codec_round_trip 100000 200 true ⟨[], [], true, [], []⟩ (by decide)
    (by decide) rfl [5] [] true [] []).1.2.2

/-- C4: `ChannelSend::send` fails with `SendError::Encode` exactly when the
serialization step fails, with `SendError::Flush` exactly when
serialization succeeded and the stream flush step fails, and on success
all encoded bytes are written to the stream and the stream is flushed.
(Failures of the two external steps are modelled by the head of the fault
schedule; a write failure inside serialization is a serialization
failure.) -/
theorem send_error_classification {α : Type} [Serial α] (v : Value α)
    (ch : Channel) :
    (ch.faults = [] → (v.send ch).2 = none) ∧
    (∀ f fs, ch.faults = f :: fs →
      (((v.send ch).2 = some SendError.Encode) ↔ f.serializeFault = true) ∧
      (((v.send ch).2 = some SendError.Flush) ↔
        (f.serializeFault = false ∧ f.flushFault = true))) ∧
    ((v.send ch).2 = none →
      (v.send ch).1.output = ch.output ++ Serial.enc v.val ∧
      (v.send ch).1.flushed = true) := by
  unfold Value.send sendBytes
  cases hf : ch.faults with
  | nil =>
    refine ⟨fun _ => rfl, ?_, fun _ => ⟨rfl, rfl⟩⟩
    intro f fs hcons
    exact absurd hcons (by simp)
  | cons f fs =>
    refine ⟨fun hnil => absurd hnil (by simp), ?_, ?_⟩
    · intro f' fs' hcons
      injection hcons with hcf hcfs
      subst hcf
      by_cases h1 : f.serializeFault = true <;>
        by_cases h2 : f.flushFault = true <;>
          simp [h1, h2]
    · intro hnone
      by_cases h1 : f.serializeFault = true <;>
        by_cases h2 : f.flushFault = true <;>
          simp [h1, h2] at hnone ⊢

/-- C6: `send_choice` has exactly the same effect on the carrier (same
bytes, same error behaviour) as sending the boolean as an ordinary typed
value through the same codec and stream, and `recv_choice` behaves exactly
like receiving an ordinary typed boolean value: the functions are equal. -/
theorem choice_equals_plain_bool :
    (∀ (b : Bool) (ch : Channel), ch.send_choice b = specPlainBoolSend b ch) ∧
    (∀ ch : Channel, ch.recv_choice = specPlainBoolRecv ch) := by
  constructor
  · intro b ch
    rfl
  · intro ch
    unfold Channel.recv_choice Value.recv specPlainBoolRecv
    rw [dec_bool]
    cases hd : decodeBool ch.input with
    | none => simp
    | some p => obtain ⟨b, rest⟩ := p; simp [Value.new, Value.get]

/-- C8: a carrier receive fails exactly when the codec cannot decode the
head of the stream; decoding fails on end-of-stream and on every strict
prefix (truncation) of a valid encoding; and `RecvError::Decode` is the
only failure kind a receive can produce. -/
theorem recv_decode_error_conditions :
    (∀ ch : Channel, ((Value.recv (α := Int) ch).2 = none ↔ decodeInt ch.input = none) ∧
      ((Value.recv (α := Nat) ch).2 = none ↔ decodeNat ch.input = none) ∧
      ((Value.recv (α := Bool) ch).2 = none ↔ decodeBool ch.input = none)) ∧
    (decodeInt [] = none ∧ decodeNat [] = none ∧ decodeBool [] = none) ∧
    (∀ v : Int, inI64 v → ∀ k < (encodeInt v).length,
      decodeInt ((encodeInt v).take k) = none) ∧
    (∀ n : Nat, ∀ k < (encodeNat n).length,
      decodeNat ((encodeNat n).take k) = none) ∧
    (∀ b : Bool, ∀ k < (encodeBool b).length,
      decodeBool ((encodeBool b).take k) = none) ∧
    (∀ e : RecvError, e = RecvError.Decode) := by
  refine ⟨?_, ⟨rfl, rfl, rfl⟩, ?_, ?_, ?_, ?_⟩
  · intro ch
    refine ⟨?_, ?_, ?_⟩
    · unfold Value.recv
      rw [dec_int]
      cases hd : decodeInt ch.input with
      | none => simp
      | some p => obtain ⟨a, r⟩ := p; simp
    · unfold Value.recv
      rw [dec_nat]
      cases hd : decodeNat ch.input with
      | none => simp
      | some p => obtain ⟨a, r⟩ := p; simp
    · unfold Value.recv
      rw [dec_bool]
      cases hd : decodeBool ch.input with
      | none => simp
      | some p => obtain ⟨a, r⟩ := p; simp
  · intro v hv k hk
    unfold encodeInt at hk ⊢
    by_cases hs : 0 ≤ v ∧ v < 128
    · rw [if_pos hs] at hk ⊢
      simp at hk
      subst hk
      rfl
    · rw [if_neg hs] at hk ⊢
      by_cases hn2 : -32 ≤ v ∧ v < 0
      · rw [if_pos hn2] at hk ⊢
        simp at hk
        subst hk
        rfl
      · rw [if_neg hn2] at hk ⊢
        simp only [List.length_cons, be_length] at hk
        cases k with
        | zero => rfl
        | succ k2 =>
          rw [List.take_succ_cons]
          simp only [decodeInt]
          norm_num
          rw [take8_short _ (by
            rw [List.length_take, be_length]
            omega)]
  · intro n k hk
    unfold encodeNat at hk ⊢
    by_cases hs : n < 128
    · rw [if_pos hs] at hk ⊢
      simp at hk
      subst hk
      rfl
    · rw [if_neg hs] at hk ⊢
      simp only [List.length_cons, be_length] at hk
      cases k with
      | zero => rfl
      | succ k2 =>
        rw [List.take_succ_cons]
        simp only [decodeNat]
        norm_num
        rw [take8_short _ (by
          rw [List.length_take, be_length]
          omega)]
  · intro b k hk
    unfold encodeBool at hk ⊢
    simp at hk
    subst hk
    rfl
  · intro e
    cases e
    rfl

/-- C5: every carrier-level failure (a serialization or flush fault on a
send, or a decode failure on a receive) aborts the in-progress session at
once: the failing operation is the last operation the driver performs, its
error is exactly the value the driver returns, every operation before it
succeeded, and a driver that returns successfully never had a failing
operation — no retry ever happens, in the server driver or in the client
driver. -/
theorem errors_abort_session (ch : Channel) (sample : Int) (values : List Int) :
    abortsAtFirst ch.log ((serverRun ch).1) (errOf (serverRun ch).2) ∧
    abortsAtFirst ch.log ((clientRun ch sample values).1)
      (errOf (clientRun ch sample values).2.1) :=
  ⟨serverRun_aborts ch, clientRun_aborts ch sample values⟩

/-- C3: the server driver reports `shouldStopServing = true` if and only
if the first choice of the session decodes to `false` (the client chose
Quit at Start); on the Quit path it consumes exactly that one choice,
writes nothing, performs no sample receive, no candidate receive and no
comparison (its whole event trace is the one choice receive); and every
run that ends at the Done or Match terminal of the scan loop reports
`false`. -/
theorem quit_sets_stop_flag :
    (∀ (rest out : List Nat) (fl : Bool) (fs : List SendFault) (lg : List Ev),
      serverRun ⟨encodeBool false ++ rest, out, fl, fs, lg⟩ =
        (⟨rest, out, fl, fs, lg ++ [Ev.recvChoice (some false)]⟩,
          Except.ok true)) ∧
    (∀ (ch ch' : Channel) (stop : Bool),
      serverRun ch = (ch', Except.ok stop) →
      (stop = true ↔ ∃ r, decodeBool ch.input = some (false, r))) ∧
    (∀ (sample : Int) (count : Nat) (ch ch' : Channel) (b : Bool),
      serverLoop sample count ch = (ch', Except.ok b) → b = false) := by
  refine ⟨serverRun_quit, ?_, ?_⟩
  · intro ch ch' stop h
    obtain ⟨inp, out, fl, fs, lg⟩ := ch
    constructor
    · intro hstop
      subst hstop
      cases hd : decodeBool inp with
      | none =>
        simp only [serverRun, recvChoiceOp_fail hd] at h
        exact absurd h (by simp)
      | some p =>
        obtain ⟨c, rest1⟩ := p
        cases c with
        | false => exact ⟨rest1, rfl⟩
        | true =>
          simp only [serverRun, recvChoiceOp_decode hd, if_true] at h
          cases he : decodeInt rest1 with
          | none =>
            simp only [recvIntOp_fail he] at h
            exact absurd h (by simp)
          | some q =>
            obtain ⟨v, rest2⟩ := q
            simp only [recvIntOp_decode he] at h
            have := serverLoop_ok_false v rest2.length 0 _ _ _ (by simp) h
            exact absurd this (by simp)
    · rintro ⟨r, hd⟩
      simp only [serverRun, recvChoiceOp_decode hd, Bool.false_eq_true,
        if_false] at h
      injection h with h1 h2
      injection h2 with h2
      exact h2.symm
  · intro sample count ch ch' b h
    exact serverLoop_ok_false sample ch.input.length count ch ch' b le_rfl h

/-- C1: over a connected carrier (the client's output stream is the
server's input stream and vice versa), one session of the client driver
against the server driver consumes both streams exactly, stops the server
with `shouldStopServing = false`, and returns to the client the zero-based
index of the first occurrence of the sample among the candidates — `none`
when the sample does not occur (in particular for an empty sequence), and
with duplicates always the first occurrence's index, never a later one. -/
theorem client_server_first_match_index (sample : Int) (values : List Int)
    (hsam : inI64 sample) (hvals : ∀ v ∈ values, inI64 v)
    (hlen : values.length ≤ 2 ^ 64) :
    ∃ (c2s s2c : List Nat) (chS chC : Channel) (res : Option Nat)
      (leftover : List Int),
      serverRun ⟨c2s, [], true, [], []⟩ = (chS, Except.ok false) ∧
      chS.input = [] ∧ chS.output = s2c ∧
      clientRun ⟨s2c, [], true, [], []⟩ sample values = (chC, Except.ok res, leftover) ∧
      chC.input = [] ∧ chC.output = c2s ∧
      res = firstIdx sample values ∧
      (firstIdx sample values = none ↔ sample ∉ values) ∧
      (∀ i, firstIdx sample values = some i →
        i < values.length ∧ values.getD i 0 = sample ∧
        ∀ j < i, values.getD j 0 ≠ sample) := by
  have hS := serverRun_trace sample values [] [] [] hsam hvals hlen
  have hC := clientRun_trace sample values [] [] [] hlen
  simp only [List.append_nil, List.nil_append] at hS hC
  exact ⟨sessC2S sample values, sessS2C sample values, _, _, _, _, hS, rfl, rfl,
    hC, rfl, rfl, rfl, firstIdx_none_iff sample values,
    firstIdx_first_occurrence sample values⟩

/-- C1 witness: the linked session evaluated at sample 3 and candidates
[-1, 0, 1, 2, 3, 4]; the client's match result evaluates to index 4. -/
theorem client_server_first_match_index_witness :
    (∃ (c2s s2c : List Nat) (chS chC : Channel) (res : Option Nat)
      (leftover : List Int),
      serverRun ⟨c2s, [], true, [], []⟩ = (chS, Except.ok false) ∧
      chS.input = [] ∧ chS.output = s2c ∧
      clientRun ⟨s2c, [], true, [], []⟩ 3 [-1, 0, 1, 2, 3, 4] =
        (chC, Except.ok res, leftover) ∧
      chC.input = [] ∧ chC.output = c2s ∧
      res = firstIdx 3 [-1, 0, 1, 2, 3, 4] ∧
      (firstIdx 3 [-1, 0, 1, 2, 3, 4] = none ↔ (3 : Int) ∉ [-1, 0, 1, 2, 3, 4]) ∧
      (∀ i, firstIdx 3 [-1, 0, 1, 2, 3, 4] = some i →
        i < ([-1, 0, 1, 2, 3, 4] : List Int).length ∧
        ([-1, 0, 1, 2, 3, 4] : List Int).getD i 0 = 3 ∧
        ∀ j < i, ([-1, 0, 1, 2, 3, 4] : List Int).getD j 0 ≠ 3)) ∧
    firstIdx 3 [-1, 0, 1, 2, 3, 4] = some 4 :=
  ⟨client_server_first_match_index 3 [-1, 0, 1, 2, 3, 4] (by decide)
    (by decide) (by decide), by decide⟩

/-- C9: for every sample and finite candidate sequence the linked session
reaches a terminal state on both sides — the server driver and the client
driver both return successfully (the terminal is a Match exactly when the
sample occurs, a client Done otherwise), and a client Quit at Start is the
remaining terminal, reached immediately with `shouldStopServing = true`.
Both drivers are total functions, so neither loops forever. -/
theorem session_always_terminates (sample : Int) (values : List Int)
    (hsam : inI64 sample) (hvals : ∀ v ∈ values, inI64 v)
    (hlen : values.length ≤ 2 ^ 64) :
    (∃ (chS chC : Channel) (res : Option Nat) (leftover : List Int),
      serverRun ⟨sessC2S sample values, [], true, [], []⟩ = (chS, Except.ok false) ∧
      clientRun ⟨sessS2C sample values, [], true, [], []⟩ sample values =
        (chC, Except.ok res, leftover) ∧
      (res.isSome = true ↔ sample ∈ values)) ∧
    (∀ (rest out : List Nat) (fl : Bool) (fs : List SendFault) (lg : List Ev),
      serverRun ⟨encodeBool false ++ rest, out, fl, fs, lg⟩ =
        (⟨rest, out, fl, fs, lg ++ [Ev.recvChoice (some false)]⟩,
          Except.ok true)) := by
  constructor
  · have hS := serverRun_trace sample values [] [] [] hsam hvals hlen
    have hC := clientRun_trace sample values [] [] [] hlen
    simp only [List.append_nil, List.nil_append] at hS hC
    refine ⟨_, _, _, _, hS, hC, ?_⟩
    rw [Option.isSome_iff_ne_none]
    have hni := firstIdx_none_iff sample values
    constructor
    · intro hne
      by_contra hmem
      exact hne (hni.mpr hmem)
    · intro hmem hnone
      exact (hni.mp hnone) hmem
  · exact serverRun_quit

/-- C9 witness: termination at sample -2 (absent from the candidates):
the client terminates with no match. -/
theorem session_always_terminates_witness :
    ∃ (chC : Channel) (res : Option Nat) (leftover : List Int),
      clientRun ⟨sessS2C (-2) [-1, 0, 1, 2, 3, 4], [], true, [], []⟩ (-2)
          [-1, 0, 1, 2, 3, 4] = (chC, Except.ok res, leftover) ∧
      (res.isSome = true ↔ (-2 : Int) ∈ [-1, 0, 1, 2, 3, 4]) := by
  obtain ⟨⟨chS, chC, res, leftover, hS, hC, hiff⟩, hq⟩ :=
    session_always_terminates (-2) [-1, 0, 1, 2, 3, 4] (by decide) (by decide)
      (by decide)
  exact ⟨chC, res, leftover, hC, hiff⟩

theorem clientLoop_match (sample : Int) (pre : List Int) :
    ∀ (post : List Int) (count : Nat) (rest out : List Nat) (lg : List Ev),
      (∀ v ∈ pre, v ≠ sample) → count + pre.length < 2 ^ 64 →
      clientLoop ⟨scanS2C sample count (pre ++ sample :: post) ++ rest, out,
          true, [], lg⟩ (pre ++ sample :: post) =
        (⟨rest, out ++ scanC2S sample (pre ++ sample :: post), true, [],
            lg ++ clientScanLog sample count (pre ++ sample :: post)⟩,
          Except.ok (some (count + pre.length)), post) := by
  induction pre with
  | nil =>
    intro post count rest out lg _ hcnt
    have hs : scanS2C sample count (sample :: post) =
        encodeBool false ++ encodeNat count := by
      rw [scanS2C, if_pos rfl]
    simp only [List.nil_append]
    simp only [clientLoop, sendChoiceOp_nofault, sendIntOp_nofault, hs,
      List.append_assoc]
    simp only [recvChoiceOp_at]
    simp only [Bool.false_eq_true, if_false, recvNatOp_at count (by omega)]
    simp [clientScanLog, scanC2S, List.append_assoc]
  | cons p pre ih =>
    intro post count rest out lg hpre hcnt
    have hp : ¬ p = sample := hpre p (by simp)
    have hs : scanS2C sample count ((p :: pre) ++ sample :: post) =
        encodeBool true ++ scanS2C sample (count + 1) (pre ++ sample :: post) := by
      rw [List.cons_append, scanS2C, if_neg hp]
    simp only [List.cons_append] at hs ⊢
    simp only [clientLoop, sendChoiceOp_nofault, sendIntOp_nofault, hs,
      List.append_assoc]
    simp only [recvChoiceOp_at]
    simp only [if_true]
    have := ih post (count + 1) rest (out ++ (encodeBool true ++ encodeInt p))
      (lg ++ [Ev.sendChoice true none] ++ [Ev.sendInt p none] ++
        [Ev.recvChoice (some true)])
      (fun w hw => hpre w (by simp [hw])) (by simp at hcnt ⊢; omega)
    simp only [List.append_assoc] at this ⊢
    rw [this]
    simp [clientScanLog, scanC2S, hp, List.append_assoc, Nat.add_assoc,
      Nat.add_comm, Nat.add_left_comm]

theorem clientScanLog_no_done (sample : Int) (pre : List Int) :
    ∀ (post : List Int) (count : Nat), (∀ v ∈ pre, v ≠ sample) →
      ∀ er, Ev.sendChoice false er ∉
        clientScanLog sample count (pre ++ sample :: post) := by
  induction pre with
  | nil =>
    intro post count _ er
    rw [List.nil_append, clientScanLog, if_pos rfl]
    simp
  | cons p pre ih =>
    intro post count hpre er
    have hp : ¬ p = sample := hpre p (by simp)
    rw [List.cons_append, clientScanLog, if_neg hp]
    simp only [List.mem_cons, not_or]
    refine ⟨by simp, by simp, by simp, ?_⟩
    exact ih post (count + 1) (fun w hw => hpre w (by simp [hw])) er

/-- C10: when the server reports a match, the client driver returns at
once with the index the server sent: the candidates after the matched one
are exactly the iterator's unconsumed leftover, any bytes past the match
reply stay unread on the carrier, and the client's event trace contains no
Done choice (it never chooses Done after a match). No bound is needed on
the candidates after the match — they are never touched. -/
theorem client_stops_at_match (sample : Int) (pre post : List Int)
    (extra : List Nat) (hpre : ∀ v ∈ pre, v ≠ sample)
    (hlen : pre.length < 2 ^ 64) :
    ∃ chC : Channel,
      clientRun ⟨sessS2C sample (pre ++ sample :: post) ++ extra, [], true, [], []⟩
          sample (pre ++ sample :: post) =
        (chC, Except.ok (some pre.length), post) ∧
      chC.input = extra ∧
      (∀ er, Ev.sendChoice false er ∉ chC.log) := by
  simp only [clientRun, sendChoiceOp_nofault, sendIntOp_nofault, sessS2C,
    List.nil_append]
  have hm := clientLoop_match sample pre post 0 extra
    (encodeBool true ++ encodeInt sample)
    ([Ev.sendChoice true none] ++ [Ev.sendInt sample none]) hpre (by omega)
  simp only [List.append_assoc, Nat.zero_add] at hm ⊢
  rw [hm]
  refine ⟨_, rfl, rfl, ?_⟩
  intro er
  simp only [Channel.log, List.mem_append, List.mem_cons, List.mem_singleton,
    not_or]
  refine ⟨⟨by simp, by simp⟩, ⟨by simp, by simp⟩, ?_⟩
  exact clientScanLog_no_done sample pre post 0 hpre er

/-- C10 witness: the duplicate-value example — sample 6 against
[-1, 0, 1, 2, 3, 4, 5, 6, 6, 7]: the client stops with index 7 (the first
6), leaves the trailing [6, 7] unconsumed and the extra byte 9 unread. -/
theorem client_stops_at_match_witness :
    ∃ chC : Channel,
      clientRun ⟨sessS2C 6 ([-1, 0, 1, 2, 3, 4, 5] ++ 6 :: [6, 7]) ++ [9],
          [], true, [], []⟩ 6 ([-1, 0, 1, 2, 3, 4, 5] ++ 6 :: [6, 7]) =
        (chC, Except.ok (some 7), [6, 7]) ∧
      chC.input = [9] ∧
      (∀ er, Ev.sendChoice false er ∉ chC.log) := by
  have h := client_stops_at_match 6 [-1, 0, 1, 2, 3, 4, 5] [6, 7] [9]
    (by decide) (by decide)
  simpa using h

/-- C7: two sessions run back to back on the same carrier: after the first
session reaches its terminal, the very same carrier runs the second
session, and the second session's result is `firstIdx s2 vs2` — a function
of the second session's sample and candidates only, independent of
anything from the first session (the server's seen-count restarts at zero
each session). -/
theorem sequential_sessions_independent (s1 s2 : Int) (vs1 vs2 : List Int)
    (restS restC : List Nat) (h1 : inI64 s1) (h2 : inI64 s2)
    (hv1 : ∀ v ∈ vs1, inI64 v) (hv2 : ∀ v ∈ vs2, inI64 v)
    (hl1 : vs1.length ≤ 2 ^ 64) (hl2 : vs2.length ≤ 2 ^ 64) :
    ∃ (chS1 chS2 chC1 chC2 : Channel) (r1 r2 : Option Nat)
      (lv1 lv2 : List Int),
      serverRun ⟨sessC2S s1 vs1 ++ (sessC2S s2 vs2 ++ restS), [], true, [], []⟩ =
        (chS1, Except.ok false) ∧
      chS1.input = sessC2S s2 vs2 ++ restS ∧
      serverRun chS1 = (chS2, Except.ok false) ∧
      chS2.input = restS ∧
      chS2.output = sessS2C s1 vs1 ++ sessS2C s2 vs2 ∧
      clientRun ⟨sessS2C s1 vs1 ++ (sessS2C s2 vs2 ++ restC), [], true, [], []⟩
          s1 vs1 = (chC1, Except.ok r1, lv1) ∧
      chC1.input = sessS2C s2 vs2 ++ restC ∧
      clientRun chC1 s2 vs2 = (chC2, Except.ok r2, lv2) ∧
      chC2.input = restC ∧
      r1 = firstIdx s1 vs1 ∧
      r2 = firstIdx s2 vs2 := by
  have hS1 := serverRun_trace s1 vs1 (sessC2S s2 vs2 ++ restS) [] [] h1 hv1 hl1
  have hS2 := serverRun_trace s2 vs2 restS ([] ++ sessS2C s1 vs1)
    ([] ++ (Ev.recvChoice (some true) :: Ev.recvInt (some s1) ::
      serverScanLog s1 0 vs1)) h2 hv2 hl2
  have hC1 := clientRun_trace s1 vs1 (sessS2C s2 vs2 ++ restC) [] [] hl1
  have hC2 := clientRun_trace s2 vs2 restC ([] ++ sessC2S s1 vs1)
    ([] ++ (Ev.sendChoice true none :: Ev.sendInt s1 none ::
      clientScanLog s1 0 vs1)) hl2
  refine ⟨_, _, _, _, _, _, _, _, hS1, rfl, hS2, rfl, by simp, hC1, rfl, hC2,
    rfl, rfl, rfl⟩

/-- C7 witness: a first session searching 1 in [1] followed on the same
carrier by a second session searching 7 in [5, 7]; the second result is
index 1, fixed by the second session's inputs alone. -/
theorem sequential_sessions_independent_witness :
    (∃ (chS1 chS2 chC1 chC2 : Channel) (r1 r2 : Option Nat)
      (lv1 lv2 : List Int),
      serverRun ⟨sessC2S 1 [1] ++ (sessC2S 7 [5, 7] ++ []), [], true, [], []⟩ =
        (chS1, Except.ok false) ∧
      chS1.input = sessC2S 7 [5, 7] ++ [] ∧
      serverRun chS1 = (chS2, Except.ok false) ∧
      chS2.input = [] ∧
      chS2.output = sessS2C 1 [1] ++ sessS2C 7 [5, 7] ∧
      clientRun ⟨sessS2C 1 [1] ++ (sessS2C 7 [5, 7] ++ []), [], true, [], []⟩
          1 [1] = (chC1, Except.ok r1, lv1) ∧
      chC1.input = sessS2C 7 [5, 7] ++ [] ∧
      clientRun chC1 7 [5, 7] = (chC2, Except.ok r2, lv2) ∧
      chC2.input = [] ∧
      r1 = firstIdx 1 [1] ∧
      r2 = firstIdx 7 [5, 7]) ∧
    firstIdx 7 [5, 7] = some 1 :=
  ⟨sequential_sessions_independent 1 7 [1] [5, 7] [] [] (by decide) (by decide)
    (by decide) (by decide) (by decide) (by decide), by decide⟩

end SessionRmp
